import Mathlib

/-!
Verification development for the volley-pwa repository.

The main application lineage lives in `src/App.tsx`; its data model and the
core derivation functions (team resolution, terminal-event inference, score
timeline, receive-quality lookback, statistics aggregation, store mutations)
are embedded below as executable Lean definitions, translated directly from
the TypeScript source.  The persistence/ingestion lineage (`src/storage.ts`
together with `src/types.ts`) is embedded in the `Storage` namespace over an
explicit model of JSON values.
-/

/-- Team side, `type TeamSide = 'our' | 'opp'` in `App.tsx`. -/
inductive TeamSide
  | our
  | opp
  deriving DecidableEq, Repr

/-- Source: `type ReceiveQuality = 'A' | 'B' | 'C'`. -/
inductive ReceiveQuality
  | A
  | B
  | C
  deriving DecidableEq, Repr

/-- Spike positions, `SPIKE_POS_LABEL` keys in `App.tsx`. -/
inductive SpikePos
  | left
  | right
  | middle
  | back
  | pipe
  | other
  deriving DecidableEq, Repr

/-- Toss types, the keys of `TOSS_LABEL` in `App.tsx`. -/
inductive TossType
  | left
  | right
  | back
  | pipe
  | aQuick
  | bQuick
  | cQuick
  | dQuick
  | bSemi
  | aSemi
  | cSemi
  | dSemi
  | time
  | backAttack
  | wide
  | short
  | combo
  | other
  deriving DecidableEq, Repr

/-- Attack results: `'kill' | 'effective' | 'continue' | 'error'`
(`cont` stands for the source's `continue`). -/
inductive AttackResult
  | kill
  | effective
  | cont
  | error
  deriving DecidableEq, Repr

/-- Serve results: `'ace' | 'effective' | 'in' | 'error'`
(`inPlay` stands for the source's `in`). -/
inductive ServeResult
  | ace
  | effective
  | inPlay
  | error
  deriving DecidableEq, Repr

/-- Block results: `'point' | 'effective' | 'touch' | 'error'`. -/
inductive BlockResult
  | point
  | effective
  | touch
  | error
  deriving DecidableEq, Repr

/-- Receive / dig / set results: `'ok' | 'error'`. -/
inductive OkErr
  | ok
  | error
  deriving DecidableEq, Repr

/-- Source: `RallyEvent` of `App.tsx`: tagged union of the six event kinds.  Every
event carries `id`, `actorId` and `at` (all required in this lineage);
`attackType` is the literal type `'spike'` in the source, so the attack
constructor carries no attack-type payload. -/
inductive RallyEvent
  | attack (id actorId : String) (evAt : Nat) (spikePos : Option SpikePos) (result : AttackResult)
  | serve (id actorId : String) (evAt : Nat) (result : ServeResult)
  | block (id actorId : String) (evAt : Nat) (result : BlockResult)
  | receive (id actorId : String) (evAt : Nat) (result : OkErr) (quality : Option ReceiveQuality)
  | dig (id actorId : String) (evAt : Nat) (result : OkErr) (quality : Option ReceiveQuality)
  | setE (id actorId : String) (evAt : Nat) (result : OkErr) (toss : Option TossType)
  deriving DecidableEq, Repr

/-- The `actorId` field common to every event variant. -/
def RallyEvent.actorId : RallyEvent → String
  | .attack _ a _ _ _ => a
  | .serve _ a _ _ => a
  | .block _ a _ _ => a
  | .receive _ a _ _ _ => a
  | .dig _ a _ _ _ => a
  | .setE _ a _ _ _ => a

/-- The `id` field common to every event variant. -/
def RallyEvent.eid : RallyEvent → String
  | .attack i _ _ _ _ => i
  | .serve i _ _ _ => i
  | .block i _ _ _ => i
  | .receive i _ _ _ _ => i
  | .dig i _ _ _ _ => i
  | .setE i _ _ _ _ => i

/-- Source: `Rally` of `App.tsx`: carries an explicit stored `point` field. -/
structure Rally where
  id : String
  matchId : String
  createdAt : Nat
  point : Option TeamSide
  events : List RallyEvent
  deriving DecidableEq, Repr

/-- The roster of a match: lists of player ids for each side. -/
structure Roster where
  our : List String
  opp : List String
  deriving DecidableEq, Repr

/-- Source: `Match` of `App.tsx`. -/
structure Match where
  id : String
  date : String
  name : Option String
  createdAt : Nat
  roster : Roster
  deriving DecidableEq, Repr

/-- Source: `Player` of `App.tsx`. -/
structure Player where
  id : String
  name : String
  createdAt : Nat
  deriving DecidableEq, Repr

/-- Source: `DB` of `App.tsx` (the root store).  `matches'` stands for the source
field `matches`, which is not a usable field name in Lean. -/
structure DB where
  players : List Player
  matches' : List Match
  rallies : List Rally
  deriving DecidableEq, Repr

/-- Source: `ANON_OUR`, the sentinel actor id for an anonymous our-side actor. -/
def ANON_OUR : String := "__anon_our__"

/-- Source: `ANON_OPP`, the sentinel actor id for an anonymous opponent actor. -/
def ANON_OPP : String := "__anon_opp__"

/-- Source: `teamByRoster(m)`: builds the player-id → team map.  The source inserts
all `roster.our` ids first and then all `roster.opp` ids, so on a duplicate
the later (`opp`) insertion wins; lookup is modelled accordingly. -/
def teamByRoster (m : Match) : String → Option TeamSide := fun pid =>
  if m.roster.opp.contains pid then some TeamSide.opp
  else if m.roster.our.contains pid then some TeamSide.our
  else none

/-- Source: `getActorTeam(e, tmap)`: anonymous sentinels resolve directly, otherwise
the roster map decides; an unknown id resolves to `null` (here `none`). -/
def getActorTeam (actorId : String) (tmap : String → Option TeamSide) : Option TeamSide :=
  if actorId = ANON_OUR then some TeamSide.our
  else if actorId = ANON_OPP then some TeamSide.opp
  else tmap actorId

/-- Source: `inferPointFromEvent(e, actorTeam)`: decides whether the event ends the
rally and which side takes the point. -/
def inferPointFromEvent (e : RallyEvent) (actorTeam : TeamSide) : Option TeamSide :=
  let oppSide : TeamSide := if actorTeam = TeamSide.our then TeamSide.opp else TeamSide.our
  match e with
  | .attack _ _ _ _ r =>
      if r = AttackResult.kill then some actorTeam
      else if r = AttackResult.error then some oppSide
      else none
  | .serve _ _ _ r =>
      if r = ServeResult.ace then some actorTeam
      else if r = ServeResult.error then some oppSide
      else none
  | .block _ _ _ r =>
      if r = BlockResult.point then some actorTeam
      else if r = BlockResult.error then some oppSide
      else none
  | .receive _ _ _ r _ =>
      if r = OkErr.error then some oppSide else none
  | .dig _ _ _ r _ =>
      if r = OkErr.error then some oppSide else none
  | .setE _ _ _ r _ =>
      if r = OkErr.error then some oppSide else none

/-- Terminal classification of a single event: resolve the actor's team and,
when resolved, apply `inferPointFromEvent`.  This is exactly the value
`actorTeam ? inferPointFromEvent(event, actorTeam) : null` computed inside
`addEventInlineAndAutoAdvance`. -/
def classifyEvent (tmap : String → Option TeamSide) (e : RallyEvent) : Option TeamSide :=
  (getActorTeam e.actorId tmap).bind (fun t => inferPointFromEvent e t)

/-- A running score `{our, opp}`. -/
structure Score where
  our : Nat
  opp : Nat
  deriving DecidableEq, Repr

/-- One row of the timeline produced by `buildTimeline`. -/
structure TimelineRow where
  rally : Rally
  scoreBefore : Score
  scoreAfter : Score
  deriving DecidableEq, Repr

/-- The fold inside `buildTimeline`: walk the sorted rallies carrying the
running score, emitting a row per rally; the stored `point` field decides
which counter increments. -/
def timelineAux (sc : Score) : List Rally → List TimelineRow
  | [] => []
  | r :: rs =>
      let after : Score :=
        match r.point with
        | some TeamSide.our => { sc with our := sc.our + 1 }
        | some TeamSide.opp => { sc with opp := sc.opp + 1 }
        | none => sc
      { rally := r, scoreBefore := sc, scoreAfter := after } :: timelineAux after rs

/-- Source: `rallies.slice().sort((a, b) => a.createdAt - b.createdAt)`: a stable
ascending sort by `createdAt` of a copy of the input array. -/
def sortByCreatedAt (rallies : List Rally) : List Rally :=
  List.insertionSort (fun a b => a.createdAt ≤ b.createdAt) rallies

/-- Source: `buildTimeline(m, rallies)` from `App.tsx` (the `m` parameter is unused
by the computation in the source as well). -/
def buildTimeline (_m : Match) (rallies : List Rally) : List TimelineRow :=
  timelineAux { our := 0, opp := 0 } (sortByCreatedAt rallies)

/-- Source: `buildTimeline` as a call on a mutable-array world: the result paired
with the state of the caller's `rallies` array after the call.  The source
sorts a `slice()` copy, so the caller's array is returned unchanged; had the
source sorted in place, the second component would be the sorted array. -/
def buildTimelineRun (m : Match) (rallies : List Rally) : List TimelineRow × List Rally :=
  (buildTimeline m rallies, rallies)

/-- Source: `computeLead(side, scoreBefore)`. -/
def computeLead (side : TeamSide) (scoreBefore : Score) : String :=
  let diff : Int :=
    if side = TeamSide.our then (scoreBefore.our : Int) - scoreBefore.opp
    else (scoreBefore.opp : Int) - scoreBefore.our
  if diff > 0 then "lead" else if diff < 0 then "behind" else "tie"

/-- The loop body of `findReceiveQualityForSet`: examine indices
`n-1, n-2, …, 0` of `events` in that order.  A non-receive/dig event is
skipped, as is a receive/dig whose resolved team differs from
`setterTeam`; the first same-team receive/dig decides the answer:
its quality when its result is `ok` and a quality is present,
otherwise `null`. -/
def findRQFrom (events : List RallyEvent) (setterTeam : TeamSide)
    (tmap : String → Option TeamSide) : Nat → Option ReceiveQuality
  | 0 => none
  | n + 1 =>
      match events.get? n with
      | none => findRQFrom events setterTeam tmap n
      | some e =>
          match e with
          | .receive _ a _ r q =>
              if getActorTeam a tmap = some setterTeam then
                if r = OkErr.ok then match q with | some qq => some qq | none => none
                else none
              else findRQFrom events setterTeam tmap n
          | .dig _ a _ r q =>
              if getActorTeam a tmap = some setterTeam then
                if r = OkErr.ok then match q with | some qq => some qq | none => none
                else none
              else findRQFrom events setterTeam tmap n
          | _ => findRQFrom events setterTeam tmap n

/-- Source: `findReceiveQualityForSet(rally, setIndex, setterTeam, tmap)`. -/
def findReceiveQualityForSet (rally : Rally) (setIndex : Nat) (setterTeam : TeamSide)
    (tmap : String → Option TeamSide) : Option ReceiveQuality :=
  findRQFrom rally.events setterTeam tmap setIndex

/-- Source: `deletePlayer(id)` from `App.tsx`: one store replacement that filters
the player out of `players`, filters the id out of both sides of every
roster, and filters every event whose `actorId` is the deleted id out of
every rally's event list. -/
def deletePlayer (db : DB) (pid : String) : DB :=
  let nextPlayers := db.players.filter (fun p => p.id ≠ pid)
  let nextMatches := db.matches'.map (fun m =>
    { m with roster := { our := m.roster.our.filter (fun x => x ≠ pid),
                         opp := m.roster.opp.filter (fun x => x ≠ pid) } })
  let nextRallies := db.rallies.map (fun r =>
    { r with events := r.events.filter (fun e => e.actorId ≠ pid) })
  { db with players := nextPlayers, matches' := nextMatches, rallies := nextRallies }

/-- The per-rally step of the loop in `addEventInlineAndAutoAdvance`: a
rally with a different id, or one already scored (`point != null`), passes
through unchanged; otherwise the event is appended and, when `inferred`
is non-null, the rally's point is set and the advance flag raised. -/
def addEventRallyStep (rallyId : String) (e : RallyEvent) (inferred : Option TeamSide)
    (r : Rally) : Rally × Bool :=
  if r.id ≠ rallyId then (r, false)
  else if r.point ≠ none then (r, false)
  else
    let updated := { r with events := r.events ++ [e] }
    match inferred with
    | some w => ({ updated with point := some w }, true)
    | none => (updated, false)

/-- The loop of `addEventInlineAndAutoAdvance` over `db.rallies`, returning
the rebuilt list and the accumulated `shouldAdvance` flag. -/
def addEventLoop (rallyId : String) (e : RallyEvent) (inferred : Option TeamSide) :
    List Rally → List Rally × Bool
  | [] => ([], false)
  | r :: rs =>
      let (r', adv₁) := addEventRallyStep rallyId e inferred r
      let (rest, adv₂) := addEventLoop rallyId e inferred rs
      (r' :: rest, adv₁ || adv₂)

/-- Source: `addEventInlineAndAutoAdvance(match, rallyId, event, onAdvanced)` from
`App.tsx` (the editing path; the `viewOnly` early return is a no-op on the
store).  `now` stands for `Date.now()` and `nextId` for the fresh `uid()`;
the `onAdvanced` callback is modelled by the returned `Option String`:
`some nextId` exactly when the source would call `onAdvanced(nextId)`. -/
def addEventInlineAndAutoAdvance (db : DB) (m : Match) (rallyId : String)
    (event : RallyEvent) (now : Nat) (nextId : String) : DB × Option String :=
  let tmap := teamByRoster m
  let actorTeam := getActorTeam event.actorId tmap
  let inferred := actorTeam.bind (fun t => inferPointFromEvent event t)
  let (nextRallies, shouldAdvance) := addEventLoop rallyId event inferred db.rallies
  let nextRallies :=
    if shouldAdvance then
      nextRallies ++ [{ id := nextId, matchId := m.id, createdAt := now + 1,
                        point := none, events := [] }]
    else nextRallies
  ({ db with rallies := nextRallies }, if shouldAdvance then some nextId else none)

/-- Source: `addManualPointAndAdvance(matchId, point, onAdvanced)` from `App.tsx`:
appends a finished rally (with the given point and no events) and a fresh
empty rally; `now` stands for `Date.now()`, `idA`/`idB` for the two `uid()`
calls. -/
def addManualPointAndAdvance (db : DB) (matchId : String) (point : TeamSide)
    (now : Nat) (idA idB : String) : DB × String :=
  let finished : Rally := { id := idA, matchId := matchId, createdAt := now,
                            point := some point, events := [] }
  let next : Rally := { id := idB, matchId := matchId, createdAt := now + 1,
                        point := none, events := [] }
  ({ db with rallies := db.rallies ++ [finished, next] }, idB)

/-- Source: `createEmptyRally(matchId)` from `App.tsx` (store effect). -/
def createEmptyRally (db : DB) (matchId : String) (now : Nat) (rid : String) : DB × String :=
  let r : Rally := { id := rid, matchId := matchId, createdAt := now, point := none, events := [] }
  ({ db with rallies := db.rallies ++ [r] }, rid)

/-- First terminal classification found scanning a list of events from the
front; `lastTerminal` below applies it to the reversed list. -/
def firstTerminal (tmap : String → Option TeamSide) : List RallyEvent → Option TeamSide
  | [] => none
  | e :: es =>
      match classifyEvent tmap e with
      | some w => some w
      | none => firstTerminal tmap es

/-- The most recent terminal classification of an event list: scan from the
end backward and take the first terminal result found.  This is the
spec's derived rally outcome. -/
def lastTerminal (tmap : String → Option TeamSide) (events : List RallyEvent) : Option TeamSide :=
  firstTerminal tmap events.reverse

/-- Rallies reachable through the application's event-recording workflow:
a fresh rally is empty and unscored (`createEmptyRally`, or the auto-advance
rally appended by `addEventInlineAndAutoAdvance` / `addManualPointAndAdvance`),
and each recorded event passes through the per-rally step of
`addEventInlineAndAutoAdvance`. -/
inductive ReachableRally (tmap : String → Option TeamSide) : Rally → Prop
  | fresh (rid mid : String) (t : Nat) :
      ReachableRally tmap { id := rid, matchId := mid, createdAt := t, point := none, events := [] }
  | record (r : Rally) (e : RallyEvent) :
      ReachableRally tmap r →
      ReachableRally tmap (addEventRallyStep r.id e (classifyEvent tmap e) r).1

/-- Source: `scoreAttack(a)`: kill 1.0, effective 0.7, continue 0.3, error 0.0. -/
def scoreAttack (r : AttackResult) : ℚ :=
  if r = AttackResult.kill then 1
  else if r = AttackResult.effective then 7/10
  else if r = AttackResult.cont then 3/10
  else 0

/-- Source: `scoreServe(s)`: ace 1.0, effective 0.7, in 0.3, error 0.0. -/
def scoreServe (r : ServeResult) : ℚ :=
  if r = ServeResult.ace then 1
  else if r = ServeResult.effective then 7/10
  else if r = ServeResult.inPlay then 3/10
  else 0

/-- Source: `scoreBlock(b)`: point 1.0, effective 0.7, touch 0.3, error 0.0. -/
def scoreBlock (r : BlockResult) : ℚ :=
  if r = BlockResult.point then 1
  else if r = BlockResult.effective then 7/10
  else if r = BlockResult.touch then 3/10
  else 0

/-- Source: `scoreReceive(r)` for receive and dig events: error 0.0, quality A 1.0,
B 0.67, C 0.33, and 0.0 when no quality is present. -/
def scoreReceive (r : OkErr) (q : Option ReceiveQuality) : ℚ :=
  if r = OkErr.error then 0
  else match q with
    | some ReceiveQuality.A => 1
    | some ReceiveQuality.B => 67/100
    | some ReceiveQuality.C => 33/100
    | none => 0

/-- Is this event a spike attack by the given actor?  (`attackType` is the
literal `'spike'` in this lineage, so every attack qualifies.) -/
def isSpikeAttackOf (pid : String) (e : RallyEvent) : Bool :=
  match e with
  | .attack _ a _ _ _ => a = pid
  | _ => false

/-- The per-event score of an event for a metric selector; used to express
the source's per-kind sums. -/
def attackScoreOf (e : RallyEvent) : ℚ :=
  match e with
  | .attack _ _ _ _ r => scoreAttack r
  | _ => 0

/-- The all-time spike aggregate of `PlayerDetail` (`spike` memo in
`App.tsx`): counts by result bucket plus `effectRate`, computed over the
player's spike-attack events; `effectRate` is `att ? scoreSum / att : 0`,
i.e. the numeric value 0 — not a null — when there are no attempts. -/
structure SpikeAgg where
  att : Nat
  kill : Nat
  eff : Nat
  cont : Nat
  err : Nat
  effectRate : ℚ
  deriving DecidableEq, Repr

/-- The result buckets of a list of attack results paired with the mean
score, exactly as the `spike` memo computes them. -/
def spikeAgg (attacks : List AttackResult) : SpikeAgg :=
  let att := attacks.length
  let scoreSum := (attacks.map scoreAttack).sum
  { att := att
    kill := (attacks.filter (fun a => a = AttackResult.kill)).length
    eff := (attacks.filter (fun a => a = AttackResult.effective)).length
    cont := (attacks.filter (fun a => a = AttackResult.cont)).length
    err := (attacks.filter (fun a => a = AttackResult.error)).length
    effectRate := if att = 0 then 0 else scoreSum / att }

/-- The all-time serve aggregate's `effectRate`: `att ? scoreSum / att : 0`. -/
def serveEffectRate (serves : List ServeResult) : ℚ :=
  if serves.length = 0 then 0 else (serves.map scoreServe).sum / serves.length

/-- The all-time block aggregate's `effectRate`: `att ? scoreSum / att : 0`. -/
def blockEffectRate (blocks : List BlockResult) : ℚ :=
  if blocks.length = 0 then 0 else (blocks.map scoreBlock).sum / blocks.length

/-- The all-time receive/dig aggregate's `effectRate`:
`att ? scoreSum / att : 0` over (result, quality) pairs. -/
def receiveEffectRate (recs : List (OkErr × Option ReceiveQuality)) : ℚ :=
  if recs.length = 0 then 0
  else (recs.map (fun p => scoreReceive p.1 p.2)).sum / recs.length

/-- The reported TypeScript value of the all-time spike `effectRate`
as the UI consumes it (`spike.effectRate.toFixed(3)`): the source
expression `att ? scoreSum / att : 0` has type `number`, never
`null`/`undefined`, so the report always carries a numeric value. -/
def reportedAllTimeSpikeRate (attacks : List AttackResult) : Option ℚ :=
  some (spikeAgg attacks).effectRate

/-- The forward scan of the next-attack search: the first attack event in
the list whose resolved team equals `setterTeam`. -/
def nextSameTeamAttackFrom (setterTeam : TeamSide) (tmap : String → Option TeamSide) :
    List RallyEvent → Option AttackResult
  | [] => none
  | e :: rest =>
      match e with
      | .attack _ a _ _ r =>
          if getActorTeam a tmap = some setterTeam then some r
          else nextSameTeamAttackFrom setterTeam tmap rest
      | _ => nextSameTeamAttackFrom setterTeam tmap rest

/-- The next-attack search used by the set metric: from index `i` onward
(the callers pass the set's index plus one), the first attack event whose
resolved team equals `setterTeam`. -/
def nextSameTeamAttack (events : List RallyEvent) (setterTeam : TeamSide)
    (tmap : String → Option TeamSide) (i : Nat) : Option AttackResult :=
  nextSameTeamAttackFrom setterTeam tmap (events.drop i)

/-- Accumulator of the per-match loop in `perMatchSeries`. -/
structure PerMatchAcc where
  aSum : ℚ
  aAtt : Nat
  sSum : ℚ
  sAtt : Nat
  bSum : ℚ
  bAtt : Nat
  rSum : ℚ
  rAtt : Nat
  setSum : ℚ
  setScored : Nat
  deriving DecidableEq, Repr

/-- The empty accumulator. -/
def PerMatchAcc.zero : PerMatchAcc := ⟨0, 0, 0, 0, 0, 0, 0, 0, 0, 0⟩

/-- The inner per-event step of the `perMatchSeries` loop for one rally:
events with a different `actorId` are skipped; spike attacks, serves,
blocks and receive/digs feed their sums; an ok set feeds the set metric
with the score of the next same-team attack in the same rally, when the
setter's team resolves and such an attack exists. -/
def perMatchEventStep (pid : String) (tmap : String → Option TeamSide)
    (events : List RallyEvent) (i : Nat) (e : RallyEvent) (acc : PerMatchAcc) : PerMatchAcc :=
  if e.actorId ≠ pid then acc
  else
    let acc :=
      match e with
      | .attack _ _ _ _ r => { acc with aAtt := acc.aAtt + 1, aSum := acc.aSum + scoreAttack r }
      | .serve _ _ _ r => { acc with sAtt := acc.sAtt + 1, sSum := acc.sSum + scoreServe r }
      | .block _ _ _ r => { acc with bAtt := acc.bAtt + 1, bSum := acc.bSum + scoreBlock r }
      | .receive _ _ _ r q =>
          { acc with rAtt := acc.rAtt + 1, rSum := acc.rSum + scoreReceive r q }
      | .dig _ _ _ r q =>
          { acc with rAtt := acc.rAtt + 1, rSum := acc.rSum + scoreReceive r q }
      | .setE _ _ _ _ _ => acc
    match e with
    | .setE _ _ _ r _ =>
        if r = OkErr.ok then
          match getActorTeam pid tmap with
          | some setterTeam =>
              match nextSameTeamAttack events setterTeam tmap (i + 1) with
              | some ar => { acc with setScored := acc.setScored + 1,
                                      setSum := acc.setSum + scoreAttack ar }
              | none => acc
          | none => acc
        else acc
    | _ => acc

/-- Run `perMatchEventStep` over the events of one rally, in order, with
their indices. -/
def perMatchRallyFold (pid : String) (tmap : String → Option TeamSide)
    (r : Rally) (acc : PerMatchAcc) : PerMatchAcc :=
  (List.range r.events.length).foldl
    (fun a i =>
      match r.events.get? i with
      | some e => perMatchEventStep pid tmap r.events i e a
      | none => a)
    acc

/-- One row of `perMatchSeries`: the five per-match efficiency metrics;
a metric with zero attempts is `null` (`none`), not zero. -/
structure PerMatchRow where
  spike : Option ℚ
  serve : Option ℚ
  block : Option ℚ
  receive : Option ℚ
  setR : Option ℚ
  deriving DecidableEq, Repr

/-- The `perMatchSeries` row for one match: fold the loop over the match's
rallies and turn each `(sum, att)` pair into `att ? sum / att : null`. -/
def perMatchRow (pid : String) (m : Match) (rallies : List Rally) : PerMatchRow :=
  let tmap := teamByRoster m
  let acc := rallies.foldl (fun a r => perMatchRallyFold pid tmap r a) PerMatchAcc.zero
  { spike := if acc.aAtt = 0 then none else some (acc.aSum / acc.aAtt)
    serve := if acc.sAtt = 0 then none else some (acc.sSum / acc.sAtt)
    block := if acc.bAtt = 0 then none else some (acc.bSum / acc.bAtt)
    receive := if acc.rAtt = 0 then none else some (acc.rSum / acc.rAtt)
    setR := if acc.setScored = 0 then none else some (acc.setSum / acc.setScored) }

namespace Storage

/-- A JSON-shaped value, modelling the `any` values that `storage.ts`
receives from `JSON.parse`. -/
inductive JValue
  | jnull
  | jbool (b : Bool)
  | jnum (n : Int)
  | jstr (s : String)
  | jarr (elems : List JValue)
  | jobj (fields : List (String × JValue))

/-- Source: `isObj(x) = x && typeof x === 'object'`: true for objects and arrays
(arrays are truthy objects in JavaScript), false for `null` (falsy),
numbers, strings and booleans. -/
def isObj : JValue → Bool
  | .jobj _ => true
  | .jarr _ => true
  | _ => false

/-- Property access `x.k`: a field lookup on an object; `undefined`
(`none`) on anything else, and for a missing key.  Arrays carry none of
the keys `storage.ts` reads. -/
def jGet : JValue → String → Option JValue
  | .jobj fields, k => fields.lookup k
  | _, _ => none

/-- Source: `typeof x.k === 'string' ? x.k : undefined`. -/
def jStrVal (x : JValue) (k : String) : Option String :=
  match jGet x k with
  | some (.jstr s) => some s
  | _ => none

/-- Source: `vals.includes(x.k)` for a list of string literals: true exactly when
the property is a string appearing in the list (`===` against a string
matches no non-string value). -/
def jStrIn (x : JValue) (k : String) (vals : List String) : Bool :=
  match jStrVal x k with
  | some s => vals.contains s
  | none => false

/-- The `attackType` vocabulary of the `types.ts` lineage: `spike | tip`. -/
inductive SAttackType
  | spike
  | tip
  deriving DecidableEq, Repr

/-- The `other` kind's result vocabulary: `continue | point | error`
(`cont` stands for `continue`). -/
inductive OtherResult
  | cont
  | point
  | error
  deriving DecidableEq, Repr

/-- Source: `RallyEvent` of `types.ts` (the persisted/storage lineage): each
variant carries the common base `id`, optional `actorId`, optional `team`
tag and optional `note`.  The ok-set's `toss` is kept as the raw string
(`toss as any` in `normalizeEvent`, which does not validate it against the
`TossType` vocabulary). -/
inductive SEvent
  | serve (id : String) (actorId : Option String) (team : Option TeamSide)
      (note : Option String) (result : ServeResult)
  | receive (id : String) (actorId : Option String) (team : Option TeamSide)
      (note : Option String) (result : OkErr) (quality : Option ReceiveQuality)
  | dig (id : String) (actorId : Option String) (team : Option TeamSide)
      (note : Option String) (result : OkErr) (quality : Option ReceiveQuality)
  | setE (id : String) (actorId : Option String) (team : Option TeamSide)
      (note : Option String) (result : OkErr) (toss : Option String)
  | attack (id : String) (actorId : Option String) (team : Option TeamSide)
      (note : Option String) (attackType : SAttackType) (result : AttackResult)
  | block (id : String) (actorId : Option String) (team : Option TeamSide)
      (note : Option String) (result : BlockResult)
  | other (id : String) (actorId : Option String) (team : Option TeamSide)
      (note : Option String) (label : String) (result : OtherResult)
  deriving DecidableEq, Repr

/-- Source: `Rally` of `types.ts`, as produced by `normalizeRally`. -/
structure SRally where
  id : String
  matchId : String
  createdAt : String
  events : List SEvent
  deriving DecidableEq, Repr

/-- The `team` field of the base: `x.team === 'our' || x.team === 'opp'
? x.team : undefined`. -/
def baseTeam (x : JValue) : Option TeamSide :=
  match jStrVal x "team" with
  | some s => if s = "our" then some TeamSide.our
              else if s = "opp" then some TeamSide.opp
              else none
  | none => none

/-- Source: `normalizeEvent(x)` from `storage.ts`: `null` (`none`) for a non-object,
a missing/non-string `id`, an unrecognized `kind`, a result outside the
kind's vocabulary, a bad `attackType` or a non-string `other`-label;
otherwise the normalized event.  An ok receive/dig whose `quality` is not
one of the strings `A`/`B`/`C` is kept with quality defaulted to `B`. -/
def normalizeEvent (x : JValue) : Option SEvent :=
  if ¬ isObj x then none
  else match jStrVal x "id" with
  | none => none
  | some i =>
    match jStrVal x "kind" with
    | none => none
    | some kind =>
      let actorId := jStrVal x "actorId"
      let team := baseTeam x
      let note := jStrVal x "note"
      if kind = "serve" then
        match jStrVal x "result" with
        | some "in" => some (.serve i actorId team note ServeResult.inPlay)
        | some "effective" => some (.serve i actorId team note ServeResult.effective)
        | some "ace" => some (.serve i actorId team note ServeResult.ace)
        | some "error" => some (.serve i actorId team note ServeResult.error)
        | _ => none
      else if kind = "receive" then
        match jStrVal x "result" with
        | some "ok" =>
            let q : ReceiveQuality :=
              match jStrVal x "quality" with
              | some "A" => ReceiveQuality.A
              | some "B" => ReceiveQuality.B
              | some "C" => ReceiveQuality.C
              | _ => ReceiveQuality.B
            some (.receive i actorId team note OkErr.ok (some q))
        | some "error" => some (.receive i actorId team note OkErr.error none)
        | _ => none
      else if kind = "dig" then
        match jStrVal x "result" with
        | some "ok" =>
            let q : ReceiveQuality :=
              match jStrVal x "quality" with
              | some "A" => ReceiveQuality.A
              | some "B" => ReceiveQuality.B
              | some "C" => ReceiveQuality.C
              | _ => ReceiveQuality.B
            some (.dig i actorId team note OkErr.ok (some q))
        | some "error" => some (.dig i actorId team note OkErr.error none)
        | _ => none
      else if kind = "set" then
        match jStrVal x "result" with
        | some "ok" => some (.setE i actorId team note OkErr.ok (jStrVal x "toss"))
        | some "error" => some (.setE i actorId team note OkErr.error none)
        | _ => none
      else if kind = "attack" then
        match jStrVal x "attackType" with
        | some "spike" =>
            match jStrVal x "result" with
            | some "continue" => some (.attack i actorId team note SAttackType.spike AttackResult.cont)
            | some "effective" => some (.attack i actorId team note SAttackType.spike AttackResult.effective)
            | some "kill" => some (.attack i actorId team note SAttackType.spike AttackResult.kill)
            | some "error" => some (.attack i actorId team note SAttackType.spike AttackResult.error)
            | _ => none
        | some "tip" =>
            match jStrVal x "result" with
            | some "continue" => some (.attack i actorId team note SAttackType.tip AttackResult.cont)
            | some "effective" => some (.attack i actorId team note SAttackType.tip AttackResult.effective)
            | some "kill" => some (.attack i actorId team note SAttackType.tip AttackResult.kill)
            | some "error" => some (.attack i actorId team note SAttackType.tip AttackResult.error)
            | _ => none
        | _ => none
      else if kind = "block" then
        match jStrVal x "result" with
        | some "touch" => some (.block i actorId team note BlockResult.touch)
        | some "effective" => some (.block i actorId team note BlockResult.effective)
        | some "point" => some (.block i actorId team note BlockResult.point)
        | some "error" => some (.block i actorId team note BlockResult.error)
        | _ => none
      else if kind = "other" then
        match jStrVal x "label" with
        | none => none
        | some lbl =>
            match jStrVal x "result" with
            | some "continue" => some (.other i actorId team note lbl OtherResult.cont)
            | some "point" => some (.other i actorId team note lbl OtherResult.point)
            | some "error" => some (.other i actorId team note lbl OtherResult.error)
            | _ => none
      else none

/-- The raw events array of a rally object:
`Array.isArray(x.events) ? x.events : []`. -/
def rawEvents (x : JValue) : List JValue :=
  match jGet x "events" with
  | some (.jarr l) => l
  | _ => []

/-- Source: `normalizeRally(x)` from `storage.ts`: `null` for a non-object or a
missing/non-string `id`/`matchId`; otherwise the rally, with a missing
`createdAt` replaced by the current time (`now` parameter here) and the
events individually normalized, dropping the rejects
(`.map(normalizeEvent).filter(Boolean)`). -/
def normalizeRally (now : String) (x : JValue) : Option SRally :=
  if ¬ isObj x then none
  else match jStrVal x "id" with
  | none => none
  | some i =>
    match jStrVal x "matchId" with
    | none => none
    | some mid =>
      let createdAt := (jStrVal x "createdAt").getD now
      some { id := i, matchId := mid, createdAt := createdAt,
             events := (rawEvents x).filterMap normalizeEvent }

end Storage

/-- The opposing side. -/
def TeamSide.opposite : TeamSide → TeamSide
  | .our => .opp
  | .opp => .our

/-- Modelled from the spec: the results the decision table of §4.2 marks as
winning for the actor's own team (serve ace, attack kill, block point;
receive/dig/set have none).  The spec's `other` kind does not exist in the
`App.tsx` event union, so it has no row here. -/
def specWinningResult : RallyEvent → Bool
  | .serve _ _ _ r => r = ServeResult.ace
  | .attack _ _ _ _ r => r = AttackResult.kill
  | .block _ _ _ r => r = BlockResult.point
  | .receive _ _ _ _ _ => false
  | .dig _ _ _ _ _ => false
  | .setE _ _ _ _ _ => false

/-- Modelled from the spec: the results the decision table marks as losing
(opponent wins): an error result of any kind. -/
def specLosingResult : RallyEvent → Bool
  | .serve _ _ _ r => r = ServeResult.error
  | .attack _ _ _ _ r => r = AttackResult.error
  | .block _ _ _ r => r = BlockResult.error
  | .receive _ _ _ r _ => r = OkErr.error
  | .dig _ _ _ r _ => r = OkErr.error
  | .setE _ _ _ r _ => r = OkErr.error

/-- Modelled from the spec: the decision table of §4.2 as a function — a
winning result awards the point to the actor's team, an error result to the
opposing team, and every remaining result is non-terminal. -/
def specTerminalTable (e : RallyEvent) (actorTeam : TeamSide) : Option TeamSide :=
  if specWinningResult e then some actorTeam
  else if specLosingResult e then some actorTeam.opposite
  else none

/-- Modelled from the spec (§4.3 step 4): each row's `scoreBefore` equals
the running score entering the rally, starting from the given score, and
the next row continues from this row's `scoreAfter`. -/
def ChainedFrom : Score → List TimelineRow → Prop
  | _, [] => True
  | sc, row :: rest => row.scoreBefore = sc ∧ ChainedFrom row.scoreAfter rest

/-- C4. For every event with a resolved actor team, `inferPointFromEvent`
follows the spec's decision table exactly: serve ace, attack kill and block
point award the point to the actor's team, an error result of any kind
awards it to the opposing team, and all remaining results are non-terminal
(null).  The spec's `other` kind does not occur in this event union. -/
theorem inferPoint_follows_decision_table (e : RallyEvent) (actorTeam : TeamSide) :
    inferPointFromEvent e actorTeam = specTerminalTable e actorTeam := by
  cases e with
  | attack i a t sp r => cases r <;> cases actorTeam <;> rfl
  | serve i a t r => cases r <;> cases actorTeam <;> rfl
  | block i a t r => cases r <;> cases actorTeam <;> rfl
  | receive i a t r q => cases r <;> cases actorTeam <;> rfl
  | dig i a t r q => cases r <;> cases actorTeam <;> rfl
  | setE i a t r s => cases r <;> cases actorTeam <;> rfl

/-- C9. `buildTimeline` is a pure, deterministic function of its inputs: a
call leaves the caller's rallies array in its pre-call state (the source
sorts a `slice()` copy), and a second call on that unchanged state produces
output identical to the first call's. -/
theorem buildTimeline_pure (m : Match) (rallies : List Rally) :
    (buildTimelineRun m rallies).2 = rallies ∧
    (buildTimelineRun m (buildTimelineRun m rallies).2).1 = (buildTimelineRun m rallies).1 ∧
    (buildTimelineRun m (buildTimelineRun m rallies).2).2 = rallies := by
  exact ⟨rfl, rfl, rfl⟩

/-- Per-row facts of the timeline fold: monotone scores, at most one side
incremented (by exactly one), and no change on an unfinished rally. -/
theorem timelineAux_row_facts (sc : Score) (rs : List Rally) :
    ∀ row ∈ timelineAux sc rs,
      (row.scoreBefore.our ≤ row.scoreAfter.our ∧ row.scoreBefore.opp ≤ row.scoreAfter.opp) ∧
      (row.scoreAfter = row.scoreBefore ∨
        (row.scoreAfter.our = row.scoreBefore.our + 1 ∧ row.scoreAfter.opp = row.scoreBefore.opp) ∨
        (row.scoreAfter.opp = row.scoreBefore.opp + 1 ∧ row.scoreAfter.our = row.scoreBefore.our)) ∧
      (row.rally.point = none → row.scoreAfter = row.scoreBefore) := by
  induction rs generalizing sc with
  | nil => intro row h; cases h
  | cons r rest ih =>
      intro row hrow
      rcases List.mem_cons.mp hrow with hhead | htail
      · subst hhead
        rcases hp : r.point with _ | side
        · refine ⟨⟨?_, ?_⟩, ?_, ?_⟩ <;> simp [timelineAux, hp]
        · cases side <;>
            refine ⟨⟨?_, ?_⟩, ?_, ?_⟩ <;>
              simp [timelineAux, hp]
      · exact ih _ _ htail

/-- The chaining of the timeline fold from any starting score. -/
theorem timelineAux_chained (sc : Score) (rs : List Rally) :
    ChainedFrom sc (timelineAux sc rs) := by
  induction rs generalizing sc with
  | nil => trivial
  | cons r rest ih => exact ⟨rfl, ih _⟩

/-- C5. For every match and rallies list, every row of `buildTimeline` has
componentwise `scoreBefore ≤ scoreAfter`, at most one side's counter grows
(by exactly one) per rally, an unfinished rally (`point = null`) leaves the
score unchanged, and the rows chain: the first row starts from `{our: 0,
opp: 0}` and each row's `scoreBefore` equals the previous row's
`scoreAfter`. -/
theorem buildTimeline_score_invariants (m : Match) (rallies : List Rally) :
    ChainedFrom { our := 0, opp := 0 } (buildTimeline m rallies) ∧
    ∀ row ∈ buildTimeline m rallies,
      (row.scoreBefore.our ≤ row.scoreAfter.our ∧ row.scoreBefore.opp ≤ row.scoreAfter.opp) ∧
      (row.scoreAfter = row.scoreBefore ∨
        (row.scoreAfter.our = row.scoreBefore.our + 1 ∧ row.scoreAfter.opp = row.scoreBefore.opp) ∨
        (row.scoreAfter.opp = row.scoreBefore.opp + 1 ∧ row.scoreAfter.our = row.scoreBefore.our)) ∧
      (row.rally.point = none → row.scoreAfter = row.scoreBefore) :=
  ⟨timelineAux_chained _ _, timelineAux_row_facts _ _⟩

/-- Witness for C5: the invariants evaluated on a concrete two-rally match,
the first rally scored for `our`, the second unfinished. -/
theorem buildTimeline_score_invariants_witness :
    (⟨⟨"r1", "m1", 1, some TeamSide.our, []⟩,
      ⟨0, 0⟩, ⟨1, 0⟩⟩ : TimelineRow) ∈
      buildTimeline ⟨"m1", "2024-01-01", none, 0, ⟨[], []⟩⟩
        [⟨"r1", "m1", 1, some TeamSide.our, []⟩, ⟨"r2", "m1", 2, none, []⟩] ∧
    ((⟨⟨"r1", "m1", 1, some TeamSide.our, []⟩, ⟨0, 0⟩, ⟨1, 0⟩⟩ : TimelineRow).scoreBefore.our ≤
      (⟨⟨"r1", "m1", 1, some TeamSide.our, []⟩, ⟨0, 0⟩, ⟨1, 0⟩⟩ : TimelineRow).scoreAfter.our ∧
      (⟨⟨"r1", "m1", 1, some TeamSide.our, []⟩, ⟨0, 0⟩, ⟨1, 0⟩⟩ : TimelineRow).scoreBefore.opp ≤
      (⟨⟨"r1", "m1", 1, some TeamSide.our, []⟩, ⟨0, 0⟩, ⟨1, 0⟩⟩ : TimelineRow).scoreAfter.opp) :=
  ⟨by decide,
    ((buildTimeline_score_invariants ⟨"m1", "2024-01-01", none, 0, ⟨[], []⟩⟩
        [⟨"r1", "m1", 1, some TeamSide.our, []⟩, ⟨"r2", "m1", 2, none, []⟩]).2
      ⟨⟨"r1", "m1", 1, some TeamSide.our, []⟩, ⟨0, 0⟩, ⟨1, 0⟩⟩ (by decide)).1⟩

/-- With no inferred point, the per-rally step never raises the advance flag
and never changes a rally's `point` or `createdAt`. -/
theorem addEventRallyStep_none (rallyId : String) (e : RallyEvent) (r : Rally) :
    (addEventRallyStep rallyId e none r).2 = false ∧
    ((addEventRallyStep rallyId e none r).1).point = r.point ∧
    ((addEventRallyStep rallyId e none r).1).createdAt = r.createdAt := by
  unfold addEventRallyStep
  by_cases h1 : r.id ≠ rallyId <;> by_cases h2 : r.point ≠ none <;> simp [h1, h2]

/-- With no inferred point, the loop of `addEventInlineAndAutoAdvance` never
advances, and preserves every rally's `point` and `createdAt` in place. -/
theorem addEventLoop_none (rallyId : String) (e : RallyEvent) (rs : List Rally) :
    (addEventLoop rallyId e none rs).2 = false ∧
    ((addEventLoop rallyId e none rs).1).map (fun r => r.point) = rs.map (fun r => r.point) ∧
    ((addEventLoop rallyId e none rs).1).map (fun r => r.createdAt) =
      rs.map (fun r => r.createdAt) := by
  induction rs with
  | nil => exact ⟨rfl, rfl, rfl⟩
  | cons r rest ih =>
      have hs := addEventRallyStep_none rallyId e r
      simp only [addEventLoop]
      refine ⟨?_, ?_, ?_⟩ <;> simp [hs.1, hs.2.1, hs.2.2, ih.1, ih.2.1, ih.2.2]

/-- C3. An event whose `actorId` is not on the match roster and is neither
anonymous-team sentinel resolves to no team; its terminal classification is
null, and recording it through `addEventInlineAndAutoAdvance` scores no
rally: no advance happens, no rally is added, and every rally keeps its
`point` (so no side's score counter can change). -/
theorem unresolved_team_never_terminal (db : DB) (m : Match) (rallyId : String)
    (event : RallyEvent) (now : Nat) (nextId : String)
    (h : getActorTeam event.actorId (teamByRoster m) = none) :
    classifyEvent (teamByRoster m) event = none ∧
    (addEventInlineAndAutoAdvance db m rallyId event now nextId).2 = none ∧
    ((addEventInlineAndAutoAdvance db m rallyId event now nextId).1.rallies.map
        (fun r => r.point) = db.rallies.map (fun r => r.point)) ∧
    ((addEventInlineAndAutoAdvance db m rallyId event now nextId).1.rallies.map
        (fun r => r.createdAt) = db.rallies.map (fun r => r.createdAt)) := by
  have hcl : classifyEvent (teamByRoster m) event = none := by
    unfold classifyEvent
    rw [h]
    rfl
  have hloop := addEventLoop_none rallyId event db.rallies
  refine ⟨hcl, ?_, ?_, ?_⟩ <;>
    simp [addEventInlineAndAutoAdvance, h, Option.bind, hloop.1, hloop.2.1, hloop.2.2]

/-- Witness for C3: a spike-attack error by an unrostered actor `"ghost"`
leaves the one unscored rally of a concrete store unscored and triggers no
auto-advance. -/
theorem unresolved_team_never_terminal_witness :
    getActorTeam (RallyEvent.attack "e9" "ghost" 5 none AttackResult.error).actorId
        (teamByRoster ⟨"m1", "2024-01-01", none, 0, ⟨["p1"], ["p2"]⟩⟩) = none ∧
    (addEventInlineAndAutoAdvance
        ⟨[], [⟨"m1", "2024-01-01", none, 0, ⟨["p1"], ["p2"]⟩⟩],
          [⟨"r1", "m1", 1, none, []⟩]⟩
        ⟨"m1", "2024-01-01", none, 0, ⟨["p1"], ["p2"]⟩⟩ "r1"
        (RallyEvent.attack "e9" "ghost" 5 none AttackResult.error) 10 "r2").2 = none :=
  ⟨by decide,
    (unresolved_team_never_terminal
        ⟨[], [⟨"m1", "2024-01-01", none, 0, ⟨["p1"], ["p2"]⟩⟩],
          [⟨"r1", "m1", 1, none, []⟩]⟩
        ⟨"m1", "2024-01-01", none, 0, ⟨["p1"], ["p2"]⟩⟩ "r1"
        (RallyEvent.attack "e9" "ghost" 5 none AttackResult.error) 10 "r2"
        (by decide)).2.1⟩

/-- Appending one event moves the most-recent-terminal scan by one step:
the new event decides when it is terminal, otherwise the old scan result
stands. -/
theorem lastTerminal_append (tmap : String → Option TeamSide) (es : List RallyEvent)
    (e : RallyEvent) :
    lastTerminal tmap (es ++ [e]) =
      match classifyEvent tmap e with
      | some w => some w
      | none => lastTerminal tmap es := by
  unfold lastTerminal
  rw [List.reverse_append]
  rfl

/-- C1 (amended). For every rally reachable through the event-recording
workflow — created empty and unscored, and extended only by the per-rally
step of `addEventInlineAndAutoAdvance` — the stored `point` equals the most
recent terminal classification of its event list (scanning from the end
backward), and is null exactly when no terminal event exists. -/
theorem reachable_rally_point_eq_lastTerminal (tmap : String → Option TeamSide) (r : Rally)
    (h : ReachableRally tmap r) : r.point = lastTerminal tmap r.events := by
  induction h with
  | fresh rid mid t => rfl
  | record r e hr ih =>
      by_cases hp : r.point = none
      · have hlt : lastTerminal tmap r.events = none := by rw [← ih, hp]
        rcases hc : classifyEvent tmap e with _ | w <;>
          simp [addEventRallyStep, hp, lastTerminal_append, hc, hlt]
      · have hp' : ¬ lastTerminal tmap r.events = none := by rw [← ih]; exact hp
        simp [addEventRallyStep, hp, ih, hp']

/-- A concrete unresolvable-roster map (no players assigned). -/
def tmapEmpty : String → Option TeamSide := fun _ => none

/-- A concrete anonymous our-side kill attack. -/
def exKillEvent : RallyEvent := RallyEvent.attack "e1" ANON_OUR 1 none AttackResult.kill

/-- A concrete fresh (empty, unscored) rally. -/
def exFreshRally : Rally := ⟨"r1", "m1", 0, none, []⟩

/-- The fresh rally after recording the kill attack through the per-rally
step of `addEventInlineAndAutoAdvance`. -/
def exRecordedRally : Rally :=
  (addEventRallyStep exFreshRally.id exKillEvent (classifyEvent tmapEmpty exKillEvent)
    exFreshRally).1

/-- Witness for C1: on the concrete recorded rally, the stored point equals
the most recent terminal classification (both `our`). -/
theorem reachable_rally_point_eq_lastTerminal_witness :
    exRecordedRally.point = lastTerminal tmapEmpty exRecordedRally.events :=
  reachable_rally_point_eq_lastTerminal tmapEmpty exRecordedRally
    (ReachableRally.record exFreshRally exKillEvent (ReachableRally.fresh "r1" "m1" 0))

/-- A concrete match with rostered players `p1` (our) and `p2` (opp). -/
def exMatch1 : Match := ⟨"m1", "2024-01-01", none, 0, ⟨["p1"], ["p2"]⟩⟩

/-- Counterexample for C1 as stated: `addManualPointAndAdvance` on an empty
store produces a rally whose scored outcome is `our` although its event
list is empty — its backward scan finds no terminal event (null) — and
`buildTimeline` nevertheless credits the point, because the outcome is the
stored `point` field, not a derived scan. -/
theorem scored_rally_without_terminal_event :
    ((addManualPointAndAdvance ⟨[], [exMatch1], []⟩ "m1" TeamSide.our 100 "rA" "rB").1.rallies.head?
        = some ⟨"rA", "m1", 100, some TeamSide.our, []⟩) ∧
    (⟨"rA", "m1", 100, some TeamSide.our, []⟩ : Rally).point = some TeamSide.our ∧
    lastTerminal (teamByRoster exMatch1) (⟨"rA", "m1", 100, some TeamSide.our, []⟩ : Rally).events
        = none ∧
    some TeamSide.our ≠ (none : Option TeamSide) ∧
    ((buildTimeline exMatch1
        (addManualPointAndAdvance ⟨[], [exMatch1], []⟩ "m1" TeamSide.our 100 "rA" "rB").1.rallies).head?.map
        (fun row => row.scoreAfter) = some ⟨1, 0⟩) := by
  refine ⟨by decide, rfl, rfl, by decide, by decide⟩

/-- A concrete store for the cascade-delete claim: `p1` (our) and `p2`
(opp) rostered in one match, with all three events of the single rally
authored by `p1`. -/
def exDb2 : DB :=
  { players := [⟨"p1", "Alice", 0⟩, ⟨"p2", "Bob", 0⟩]
    matches' := [exMatch1]
    rallies := [⟨"r1", "m1", 1, none,
      [RallyEvent.serve "e1" "p1" 1 ServeResult.inPlay,
       RallyEvent.receive "e2" "p1" 2 OkErr.ok (some ReceiveQuality.A),
       RallyEvent.attack "e3" "p1" 3 none AttackResult.cont]⟩] }

/-- Counterexample for C2 as stated: deleting `p1` from `exDb2` leaves the
rally with zero events — the three events `p1` authored are removed from
the event list, not kept with a neutralized `actorId`. -/
theorem deletePlayer_drops_authored_events :
    (deletePlayer exDb2 "p1").rallies.map (fun r => r.events.length) = [0] ∧
    exDb2.rallies.map (fun r => r.events.length) = [3] := by
  refine ⟨by decide, by decide⟩

/-- C2 (amended). Deleting a player, in a single store replacement, removes
exactly that player's record, removes the player's id from both sides of
every roster, and removes (rather than keeps) every event they authored,
while preserving all other players, every match's identity fields, every
rally's identity, ordering and `point` fields, and all events by other
actors. -/
theorem deletePlayer_cascade (db : DB) (pid : String) :
    (∀ p ∈ db.players, p.id ≠ pid → p ∈ (deletePlayer db pid).players) ∧
    (∀ p ∈ (deletePlayer db pid).players, p ∈ db.players ∧ p.id ≠ pid) ∧
    (deletePlayer db pid).matches'.length = db.matches'.length ∧
    (∀ i m m', db.matches'.get? i = some m →
      (deletePlayer db pid).matches'.get? i = some m' →
      m'.id = m.id ∧ m'.date = m.date ∧ m'.name = m.name ∧ m'.createdAt = m.createdAt ∧
      (∀ x, x ∈ m'.roster.our ↔ x ∈ m.roster.our ∧ x ≠ pid) ∧
      (∀ x, x ∈ m'.roster.opp ↔ x ∈ m.roster.opp ∧ x ≠ pid)) ∧
    (deletePlayer db pid).rallies.length = db.rallies.length ∧
    (∀ i r r', db.rallies.get? i = some r →
      (deletePlayer db pid).rallies.get? i = some r' →
      r'.id = r.id ∧ r'.matchId = r.matchId ∧ r'.createdAt = r.createdAt ∧
      r'.point = r.point ∧
      (∀ e, e ∈ r'.events ↔ e ∈ r.events ∧ e.actorId ≠ pid)) := by
  refine ⟨?_, ?_, ?_, ?_, ?_, ?_⟩
  · intro p hp hne
    simp [deletePlayer, List.mem_filter, hp, hne]
  · intro p hp
    simp only [deletePlayer, List.mem_filter, decide_eq_true_eq] at hp
    exact hp
  · simp [deletePlayer]
  · intro i m m' h1 h2
    simp only [deletePlayer, List.get?_map, h1, Option.map_some'] at h2
    cases h2
    refine ⟨rfl, rfl, rfl, rfl, ?_, ?_⟩ <;>
      intro x <;> simp [List.mem_filter]
  · simp [deletePlayer]
  · intro i r r' h1 h2
    simp only [deletePlayer, List.get?_map, h1, Option.map_some'] at h2
    cases h2
    refine ⟨rfl, rfl, rfl, rfl, ?_⟩
    intro e
    simp [List.mem_filter]

/-- Witness for C2: on `exDb2`, deleting `p1` keeps `p2`'s record and keeps
the number of rallies. -/
theorem deletePlayer_cascade_witness :
    (⟨"p2", "Bob", 0⟩ : Player) ∈ (deletePlayer exDb2 "p1").players ∧
    (deletePlayer exDb2 "p1").rallies.length = exDb2.rallies.length :=
  ⟨(deletePlayer_cascade exDb2 "p1").1 ⟨"p2", "Bob", 0⟩ (by decide) (by decide),
    (deletePlayer_cascade exDb2 "p1").2.2.2.2.1⟩

/-- Modelled from the spec (§4.4): is this event a receive or dig whose
resolved team equals the setter's team?  If so, yield its result and
quality. -/
def sameTeamRD (setterTeam : TeamSide) (tmap : String → Option TeamSide) :
    RallyEvent → Option (OkErr × Option ReceiveQuality)
  | .receive _ a _ r q =>
      if getActorTeam a tmap = some setterTeam then some (r, q) else none
  | .dig _ a _ r q =>
      if getActorTeam a tmap = some setterTeam then some (r, q) else none
  | _ => none

/-- Modelled from the spec (§4.4): scan the events before `setIndex`
backward (the reversed prefix), find the first same-team receive/dig, and
answer its quality when its result is ok and a quality is present —
otherwise null, without looking further back; null also when no such event
precedes the set. -/
def findRQSpec (events : List RallyEvent) (setIndex : Nat) (setterTeam : TeamSide)
    (tmap : String → Option TeamSide) : Option ReceiveQuality :=
  match ((events.take setIndex).reverse).findSome? (sameTeamRD setterTeam tmap) with
  | some (OkErr.ok, some q) => some q
  | some _ => none
  | none => none

/-- The loop of `findReceiveQualityForSet` agrees with the spec's backward
scan at every in-range start index. -/
theorem findRQFrom_eq_spec (events : List RallyEvent) (setterTeam : TeamSide)
    (tmap : String → Option TeamSide) :
    ∀ n, n ≤ events.length →
      findRQFrom events setterTeam tmap n = findRQSpec events n setterTeam tmap := by
  intro n
  induction n with
  | zero => intro _; rfl
  | succ k ih =>
      intro hle
      have hk : k < events.length := Nat.lt_of_succ_le hle
      obtain ⟨e, he⟩ : ∃ e, events[k]? = some e :=
        ⟨events.get ⟨k, hk⟩, by simp [List.getElem?_eq_getElem hk]⟩
      have htake : events.take (k + 1) = events.take k ++ [e] := by
        rw [List.take_succ, he]
        rfl
      have hspec : findRQSpec events (k + 1) setterTeam tmap =
          match sameTeamRD setterTeam tmap e with
          | some (OkErr.ok, some q) => some q
          | some _ => none
          | none => findRQSpec events k setterTeam tmap := by
        unfold findRQSpec
        rw [htake, List.reverse_append]
        simp only [List.reverse_cons, List.reverse_nil, List.nil_append, List.singleton_append,
          List.findSome?_cons]
        rcases hrd : sameTeamRD setterTeam tmap e with _ | ⟨r, q⟩
        · rfl
        · rcases r <;> rcases q <;> rfl
      rw [hspec]
      unfold findRQFrom
      have hget : events.get? k = some e := by
        rw [List.get?_eq_getElem?, he]
      rw [hget]
      rcases e with ⟨i, a, t, sp, r⟩ | ⟨i, a, t, r⟩ | ⟨i, a, t, r⟩ | ⟨i, a, t, r, q⟩ |
        ⟨i, a, t, r, q⟩ | ⟨i, a, t, r, s⟩
      · simpa [sameTeamRD] using ih (Nat.le_of_lt hk)
      · simpa [sameTeamRD] using ih (Nat.le_of_lt hk)
      · simpa [sameTeamRD] using ih (Nat.le_of_lt hk)
      · by_cases hteam : getActorTeam a tmap = some setterTeam
        · simp only [sameTeamRD, hteam, if_true]
          rcases r <;> rcases q <;> rfl
        · simpa [sameTeamRD, hteam] using ih (Nat.le_of_lt hk)
      · by_cases hteam : getActorTeam a tmap = some setterTeam
        · simp only [sameTeamRD, hteam, if_true]
          rcases r <;> rcases q <;> rfl
        · simpa [sameTeamRD, hteam] using ih (Nat.le_of_lt hk)
      · simpa [sameTeamRD] using ih (Nat.le_of_lt hk)

/-- C6. `findReceiveQualityForSet` performs exactly the spec's lookback:
scanning backward from just before the set's index, it stops at the first
receive/dig whose resolved team equals the setter's team, answers its
quality when the result is ok and a quality is present, and answers null
otherwise — never skipping past a same-team receive/dig — and answers null
when no same-team receive/dig precedes the set. -/
theorem findReceiveQualityForSet_eq_spec (rally : Rally) (setIndex : Nat)
    (setterTeam : TeamSide) (tmap : String → Option TeamSide)
    (h : setIndex ≤ rally.events.length) :
    findReceiveQualityForSet rally setIndex setterTeam tmap =
      findRQSpec rally.events setIndex setterTeam tmap :=
  findRQFrom_eq_spec rally.events setterTeam tmap setIndex h

/-- The spec's own lookback example: receive(ok, A, our) then set(ok, our). -/
def exLookbackRally : Rally :=
  ⟨"r1", "m1", 1, none,
    [RallyEvent.receive "e1" "p1" 1 OkErr.ok (some ReceiveQuality.A),
     RallyEvent.setE "e2" "p1" 2 OkErr.ok (some TossType.left),
     RallyEvent.attack "e3" "p1" 3 none AttackResult.kill]⟩

/-- Witness for C6: on the spec's example rally, the lookback at the set's
index agrees with the spec scan, and both give quality `A`. -/
theorem findReceiveQualityForSet_eq_spec_witness :
    1 ≤ exLookbackRally.events.length ∧
    findReceiveQualityForSet exLookbackRally 1 TeamSide.our (teamByRoster exMatch1) =
      findRQSpec exLookbackRally.events 1 TeamSide.our (teamByRoster exMatch1) ∧
    findReceiveQualityForSet exLookbackRally 1 TeamSide.our (teamByRoster exMatch1) =
      some ReceiveQuality.A :=
  ⟨by decide,
    findReceiveQualityForSet_eq_spec exLookbackRally 1 TeamSide.our (teamByRoster exMatch1)
      (by decide),
    by decide⟩

/-- Every per-attack score lies in `[0, 1]`. -/
theorem scoreAttack_bounds (r : AttackResult) : 0 ≤ scoreAttack r ∧ scoreAttack r ≤ 1 := by
  cases r <;> simp [scoreAttack] <;> norm_num

/-- Every per-serve score lies in `[0, 1]`. -/
theorem scoreServe_bounds (r : ServeResult) : 0 ≤ scoreServe r ∧ scoreServe r ≤ 1 := by
  cases r <;> simp [scoreServe] <;> norm_num

/-- Every per-block score lies in `[0, 1]`. -/
theorem scoreBlock_bounds (r : BlockResult) : 0 ≤ scoreBlock r ∧ scoreBlock r ≤ 1 := by
  cases r <;> simp [scoreBlock] <;> norm_num

/-- Every per-receive score lies in `[0, 1]`. -/
theorem scoreReceive_bounds (r : OkErr) (q : Option ReceiveQuality) :
    0 ≤ scoreReceive r q ∧ scoreReceive r q ≤ 1 := by
  cases r <;> rcases q with _ | q
  · simp [scoreReceive]
  · cases q <;> simp [scoreReceive] <;> norm_num
  · simp [scoreReceive]
  · cases q <;> simp [scoreReceive] <;> norm_num

/-- A list of rationals that are all at least 0 has nonnegative sum. -/
theorem qlist_sum_nonneg (l : List ℚ) (h : ∀ x ∈ l, 0 ≤ x) : 0 ≤ l.sum := by
  induction l with
  | nil => simp
  | cons x xs ih =>
      simp only [List.sum_cons]
      have hx := h x (List.mem_cons_self x xs)
      have hxs := ih (fun y hy => h y (List.mem_cons_of_mem x hy))
      linarith

/-- A list of rationals that are all at most 1 has sum at most its length. -/
theorem qlist_sum_le_length (l : List ℚ) (h : ∀ x ∈ l, x ≤ 1) : l.sum ≤ l.length := by
  induction l with
  | nil => simp
  | cons x xs ih =>
      simp only [List.sum_cons, List.length_cons]
      have hx := h x (List.mem_cons_self x xs)
      have hxs := ih (fun y hy => h y (List.mem_cons_of_mem x hy))
      push_cast
      linarith

/-- A sum of at most `n` ones divided by a positive count `n` lies in
`[0, 1]`. -/
theorem ratio_unit_interval (s : ℚ) (n : Nat) (hn : n ≠ 0) (h0 : 0 ≤ s) (h1 : s ≤ n) :
    0 ≤ s / n ∧ s / n ≤ 1 := by
  have hpos : (0 : ℚ) < n := by
    have := Nat.pos_of_ne_zero hn
    exact_mod_cast this
  constructor
  · exact div_nonneg h0 (le_of_lt hpos)
  · rw [div_le_one hpos]
    exact h1

/-- A fold whose step adds `g x` to a natural projection adds the total. -/
theorem foldl_proj_add {α : Type} (proj : PerMatchAcc → Nat) (f : PerMatchAcc → α → PerMatchAcc)
    (g : α → Nat) (hf : ∀ acc x, proj (f acc x) = proj acc + g x) :
    ∀ (l : List α) (acc : PerMatchAcc), proj (l.foldl f acc) = proj acc + (l.map g).sum := by
  intro l
  induction l with
  | nil => intro acc; simp
  | cons x xs ih =>
      intro acc
      simp only [List.foldl_cons, List.map_cons, List.sum_cons]
      rw [ih, hf, Nat.add_assoc]

/-- A fold whose step adds at most `g x` to a natural projection adds at
most the total. -/
theorem foldl_proj_le {α : Type} (proj : PerMatchAcc → Nat) (f : PerMatchAcc → α → PerMatchAcc)
    (g : α → Nat) (hf : ∀ acc x, proj (f acc x) ≤ proj acc + g x) :
    ∀ (l : List α) (acc : PerMatchAcc), proj (l.foldl f acc) ≤ proj acc + (l.map g).sum := by
  intro l
  induction l with
  | nil => intro acc; simp
  | cons x xs ih =>
      intro acc
      simp only [List.foldl_cons, List.map_cons, List.sum_cons]
      calc proj (xs.foldl f (f acc x)) ≤ proj (f acc x) + (xs.map g).sum := ih _
    _ ≤ proj acc + g x + (xs.map g).sum := Nat.add_le_add_right (hf acc x) _
    _ = proj acc + (g x + (xs.map g).sum) := Nat.add_assoc _ _ _

/-- An invariant preserved by the step of a fold is preserved by the fold. -/
theorem foldl_inv {α β : Type} (P : β → Prop) (f : β → α → β)
    (hf : ∀ b x, P b → P (f b x)) : ∀ (l : List α) (b : β), P b → P (l.foldl f b) := by
  intro l
  induction l with
  | nil => intro b hb; exact hb
  | cons x xs ih => intro b hb; exact ih _ (hf b x hb)

/-- Is this event a serve by the given actor? -/
def isServeOf (pid : String) (e : RallyEvent) : Bool :=
  match e with
  | .serve _ a _ _ => a = pid
  | _ => false

/-- Is this event a block by the given actor? -/
def isBlockOf (pid : String) (e : RallyEvent) : Bool :=
  match e with
  | .block _ a _ _ => a = pid
  | _ => false

/-- Is this event a receive or dig by the given actor? -/
def isRDOf (pid : String) (e : RallyEvent) : Bool :=
  match e with
  | .receive _ a _ _ _ => a = pid
  | .dig _ a _ _ _ => a = pid
  | _ => false

/-- Is this event an ok set by the given actor? -/
def isOkSetOf (pid : String) (e : RallyEvent) : Bool :=
  match e with
  | .setE _ a _ r _ => a = pid ∧ r = OkErr.ok
  | _ => false

/-- The per-event step on an attack event: feed the spike metric when the
actor matches. -/
theorem perMatchEventStep_attack_eq (pid : String) (tmap : String → Option TeamSide)
    (events : List RallyEvent) (i : Nat) (id a : String) (t : Nat) (sp : Option SpikePos)
    (r : AttackResult) (acc : PerMatchAcc) :
    perMatchEventStep pid tmap events i (.attack id a t sp r) acc =
      if a = pid then { acc with aAtt := acc.aAtt + 1, aSum := acc.aSum + scoreAttack r }
      else acc := by
  by_cases ha : a = pid <;> simp [perMatchEventStep, RallyEvent.actorId, ha]

/-- The per-event step on a serve event. -/
theorem perMatchEventStep_serve_eq (pid : String) (tmap : String → Option TeamSide)
    (events : List RallyEvent) (i : Nat) (id a : String) (t : Nat)
    (r : ServeResult) (acc : PerMatchAcc) :
    perMatchEventStep pid tmap events i (.serve id a t r) acc =
      if a = pid then { acc with sAtt := acc.sAtt + 1, sSum := acc.sSum + scoreServe r }
      else acc := by
  by_cases ha : a = pid <;> simp [perMatchEventStep, RallyEvent.actorId, ha]

/-- The per-event step on a block event. -/
theorem perMatchEventStep_block_eq (pid : String) (tmap : String → Option TeamSide)
    (events : List RallyEvent) (i : Nat) (id a : String) (t : Nat)
    (r : BlockResult) (acc : PerMatchAcc) :
    perMatchEventStep pid tmap events i (.block id a t r) acc =
      if a = pid then { acc with bAtt := acc.bAtt + 1, bSum := acc.bSum + scoreBlock r }
      else acc := by
  by_cases ha : a = pid <;> simp [perMatchEventStep, RallyEvent.actorId, ha]

/-- The per-event step on a receive event. -/
theorem perMatchEventStep_receive_eq (pid : String) (tmap : String → Option TeamSide)
    (events : List RallyEvent) (i : Nat) (id a : String) (t : Nat)
    (r : OkErr) (q : Option ReceiveQuality) (acc : PerMatchAcc) :
    perMatchEventStep pid tmap events i (.receive id a t r q) acc =
      if a = pid then { acc with rAtt := acc.rAtt + 1, rSum := acc.rSum + scoreReceive r q }
      else acc := by
  by_cases ha : a = pid <;> simp [perMatchEventStep, RallyEvent.actorId, ha]

/-- The per-event step on a dig event. -/
theorem perMatchEventStep_dig_eq (pid : String) (tmap : String → Option TeamSide)
    (events : List RallyEvent) (i : Nat) (id a : String) (t : Nat)
    (r : OkErr) (q : Option ReceiveQuality) (acc : PerMatchAcc) :
    perMatchEventStep pid tmap events i (.dig id a t r q) acc =
      if a = pid then { acc with rAtt := acc.rAtt + 1, rSum := acc.rSum + scoreReceive r q }
      else acc := by
  by_cases ha : a = pid <;> simp [perMatchEventStep, RallyEvent.actorId, ha]

/-- The per-event step on a set event: either a no-op, or (for an ok set by
the player whose team resolves and whose rally continues with a same-team
attack) one set attempt scored with that attack's score. -/
theorem perMatchEventStep_setE_cases (pid : String) (tmap : String → Option TeamSide)
    (events : List RallyEvent) (i : Nat) (id a : String) (t : Nat)
    (r : OkErr) (s : Option TossType) (acc : PerMatchAcc) :
    perMatchEventStep pid tmap events i (.setE id a t r s) acc = acc ∨
    ((a = pid ∧ r = OkErr.ok) ∧ ∃ ar : AttackResult,
      perMatchEventStep pid tmap events i (.setE id a t r s) acc =
        { acc with setScored := acc.setScored + 1, setSum := acc.setSum + scoreAttack ar }) := by
  by_cases ha : a = pid
  · by_cases hok : r = OkErr.ok
    · rcases hteam : getActorTeam pid tmap with _ | st
      · left; simp [perMatchEventStep, RallyEvent.actorId, ha, hok, hteam]
      · rcases hna : nextSameTeamAttack events st tmap (i + 1) with _ | ar
        · left; simp [perMatchEventStep, RallyEvent.actorId, ha, hok, hteam, hna]
        · right
          exact ⟨⟨ha, hok⟩, ar, by
            simp [perMatchEventStep, RallyEvent.actorId, ha, hok, hteam, hna]⟩
    · left; simp [perMatchEventStep, RallyEvent.actorId, ha, hok]
  · left; simp [perMatchEventStep, RallyEvent.actorId, ha]

/-- The per-event step's contribution counters: each of the four simple
metrics counts exactly its contributing events, and the set metric counts
at most one per ok set by the player. -/
theorem perMatchEventStep_counts (pid : String) (tmap : String → Option TeamSide)
    (events : List RallyEvent) (i : Nat) (e : RallyEvent) (acc : PerMatchAcc) :
    (perMatchEventStep pid tmap events i e acc).aAtt =
      acc.aAtt + (if isSpikeAttackOf pid e then 1 else 0) ∧
    (perMatchEventStep pid tmap events i e acc).sAtt =
      acc.sAtt + (if isServeOf pid e then 1 else 0) ∧
    (perMatchEventStep pid tmap events i e acc).bAtt =
      acc.bAtt + (if isBlockOf pid e then 1 else 0) ∧
    (perMatchEventStep pid tmap events i e acc).rAtt =
      acc.rAtt + (if isRDOf pid e then 1 else 0) ∧
    (perMatchEventStep pid tmap events i e acc).setScored ≤
      acc.setScored + (if isOkSetOf pid e then 1 else 0) := by
  rcases e with ⟨id, a, t, sp, r⟩ | ⟨id, a, t, r⟩ | ⟨id, a, t, r⟩ | ⟨id, a, t, r, q⟩ |
    ⟨id, a, t, r, q⟩ | ⟨id, a, t, r, s⟩
  · rw [perMatchEventStep_attack_eq]
    by_cases ha : a = pid <;>
      simp [ha, isSpikeAttackOf, isServeOf, isBlockOf, isRDOf, isOkSetOf]
  · rw [perMatchEventStep_serve_eq]
    by_cases ha : a = pid <;>
      simp [ha, isSpikeAttackOf, isServeOf, isBlockOf, isRDOf, isOkSetOf]
  · rw [perMatchEventStep_block_eq]
    by_cases ha : a = pid <;>
      simp [ha, isSpikeAttackOf, isServeOf, isBlockOf, isRDOf, isOkSetOf]
  · rw [perMatchEventStep_receive_eq]
    by_cases ha : a = pid <;>
      simp [ha, isSpikeAttackOf, isServeOf, isBlockOf, isRDOf, isOkSetOf]
  · rw [perMatchEventStep_dig_eq]
    by_cases ha : a = pid <;>
      simp [ha, isSpikeAttackOf, isServeOf, isBlockOf, isRDOf, isOkSetOf]
  · rcases perMatchEventStep_setE_cases pid tmap events i id a t r s acc with heq | ⟨⟨ha, hok⟩, ar, heq⟩
    · simp [heq, isSpikeAttackOf, isServeOf, isBlockOf, isRDOf, isOkSetOf]
    · subst ha
      subst hok
      simp [heq, isSpikeAttackOf, isServeOf, isBlockOf, isRDOf, isOkSetOf]

/-- Boundedness invariant of the per-match accumulator: every running sum is
nonnegative and at most its attempt counter. -/
def AccBounded (acc : PerMatchAcc) : Prop :=
  0 ≤ acc.aSum ∧ acc.aSum ≤ (acc.aAtt : ℚ) ∧
  0 ≤ acc.sSum ∧ acc.sSum ≤ (acc.sAtt : ℚ) ∧
  0 ≤ acc.bSum ∧ acc.bSum ≤ (acc.bAtt : ℚ) ∧
  0 ≤ acc.rSum ∧ acc.rSum ≤ (acc.rAtt : ℚ) ∧
  0 ≤ acc.setSum ∧ acc.setSum ≤ (acc.setScored : ℚ)

/-- Adding one attempt scored in `[0, 1]` keeps a sum within its counter. -/
theorem pair_step (s : ℚ) (n : Nat) (x : ℚ) (h0 : 0 ≤ s) (h1 : s ≤ (n : ℚ))
    (hx0 : 0 ≤ x) (hx1 : x ≤ 1) : 0 ≤ s + x ∧ s + x ≤ ((n + 1 : Nat) : ℚ) := by
  push_cast
  constructor <;> linarith

/-- The per-event step preserves the boundedness invariant. -/
theorem perMatchEventStep_bounded (pid : String) (tmap : String → Option TeamSide)
    (events : List RallyEvent) (i : Nat) (e : RallyEvent) (acc : PerMatchAcc)
    (h : AccBounded acc) : AccBounded (perMatchEventStep pid tmap events i e acc) := by
  obtain ⟨h1, h2, h3, h4, h5, h6, h7, h8, h9, h10⟩ := h
  rcases e with ⟨id, a, t, sp, r⟩ | ⟨id, a, t, r⟩ | ⟨id, a, t, r⟩ | ⟨id, a, t, r, q⟩ |
    ⟨id, a, t, r, q⟩ | ⟨id, a, t, r, s⟩
  · rw [perMatchEventStep_attack_eq]
    by_cases ha : a = pid
    · rw [if_pos ha]
      have hp := pair_step acc.aSum acc.aAtt (scoreAttack r) h1 h2
        (scoreAttack_bounds r).1 (scoreAttack_bounds r).2
      exact ⟨hp.1, hp.2, h3, h4, h5, h6, h7, h8, h9, h10⟩
    · rw [if_neg ha]
      exact ⟨h1, h2, h3, h4, h5, h6, h7, h8, h9, h10⟩
  · rw [perMatchEventStep_serve_eq]
    by_cases ha : a = pid
    · rw [if_pos ha]
      have hp := pair_step acc.sSum acc.sAtt (scoreServe r) h3 h4
        (scoreServe_bounds r).1 (scoreServe_bounds r).2
      exact ⟨h1, h2, hp.1, hp.2, h5, h6, h7, h8, h9, h10⟩
    · rw [if_neg ha]
      exact ⟨h1, h2, h3, h4, h5, h6, h7, h8, h9, h10⟩
  · rw [perMatchEventStep_block_eq]
    by_cases ha : a = pid
    · rw [if_pos ha]
      have hp := pair_step acc.bSum acc.bAtt (scoreBlock r) h5 h6
        (scoreBlock_bounds r).1 (scoreBlock_bounds r).2
      exact ⟨h1, h2, h3, h4, hp.1, hp.2, h7, h8, h9, h10⟩
    · rw [if_neg ha]
      exact ⟨h1, h2, h3, h4, h5, h6, h7, h8, h9, h10⟩
  · rw [perMatchEventStep_receive_eq]
    by_cases ha : a = pid
    · rw [if_pos ha]
      have hp := pair_step acc.rSum acc.rAtt (scoreReceive r q) h7 h8
        (scoreReceive_bounds r q).1 (scoreReceive_bounds r q).2
      exact ⟨h1, h2, h3, h4, h5, h6, hp.1, hp.2, h9, h10⟩
    · rw [if_neg ha]
      exact ⟨h1, h2, h3, h4, h5, h6, h7, h8, h9, h10⟩
  · rw [perMatchEventStep_dig_eq]
    by_cases ha : a = pid
    · rw [if_pos ha]
      have hp := pair_step acc.rSum acc.rAtt (scoreReceive r q) h7 h8
        (scoreReceive_bounds r q).1 (scoreReceive_bounds r q).2
      exact ⟨h1, h2, h3, h4, h5, h6, hp.1, hp.2, h9, h10⟩
    · rw [if_neg ha]
      exact ⟨h1, h2, h3, h4, h5, h6, h7, h8, h9, h10⟩
  · rcases perMatchEventStep_setE_cases pid tmap events i id a t r s acc with
      heq | ⟨⟨ha, hok⟩, ar, heq⟩
    · rw [heq]
      exact ⟨h1, h2, h3, h4, h5, h6, h7, h8, h9, h10⟩
    · rw [heq]
      have hp := pair_step acc.setSum acc.setScored (scoreAttack ar) h9 h10
        (scoreAttack_bounds ar).1 (scoreAttack_bounds ar).2
      exact ⟨h1, h2, h3, h4, h5, h6, h7, h8, hp.1, hp.2⟩

/-- The rally-level fold preserves the boundedness invariant. -/
theorem perMatchRallyFold_bounded (pid : String) (tmap : String → Option TeamSide)
    (r : Rally) (acc : PerMatchAcc) (h : AccBounded acc) :
    AccBounded (perMatchRallyFold pid tmap r acc) := by
  unfold perMatchRallyFold
  refine foldl_inv AccBounded _ ?_ _ acc h
  intro b i hb
  rcases hg : r.events.get? i with _ | e
  · simpa [hg] using hb
  · simpa [hg] using perMatchEventStep_bounded pid tmap r.events i e b hb

/-- The accumulator after folding all rallies is bounded. -/
theorem perMatchAcc_final_bounded (pid : String) (tmap : String → Option TeamSide)
    (rallies : List Rally) :
    AccBounded (rallies.foldl (fun a r => perMatchRallyFold pid tmap r a) PerMatchAcc.zero) := by
  refine foldl_inv AccBounded _ ?_ rallies PerMatchAcc.zero ?_
  · intro b r hb
    exact perMatchRallyFold_bounded pid tmap r b hb
  · refine ⟨?_, ?_, ?_, ?_, ?_, ?_, ?_, ?_, ?_, ?_⟩ <;> norm_num [PerMatchAcc.zero]

/-- Summing the indexed indicator over a list's index range counts the
events satisfying the predicate. -/
theorem range_count (pred : RallyEvent → Bool) (l : List RallyEvent) :
    ((List.range l.length).map (fun i =>
      match l.get? i with
      | some e => if pred e then 1 else 0
      | none => 0)).sum = (l.filter pred).length := by
  induction l with
  | nil => rfl
  | cons e es ih =>
      rw [List.length_cons, List.range_succ_eq_map]
      simp only [List.map_cons, List.map_map, List.sum_cons]
      have hcomp : ((fun i => match (e :: es).get? i with
          | some x => if pred x then 1 else 0
          | none => 0) ∘ Nat.succ) = (fun i => match es.get? i with
          | some x => if pred x then 1 else 0
          | none => 0) := by
        funext i
        rfl
      rw [hcomp, ih]
      by_cases hpe : pred e <;> simp [List.filter_cons, hpe, Nat.add_comm]

/-- A projection that the per-event step advances by an indicator advances
over one rally by the count of contributing events. -/
theorem perMatchRallyFold_proj_eq (pid : String) (tmap : String → Option TeamSide)
    (proj : PerMatchAcc → Nat) (pred : RallyEvent → Bool)
    (hstep : ∀ events i e acc, proj (perMatchEventStep pid tmap events i e acc) =
      proj acc + (if pred e then 1 else 0))
    (r : Rally) (acc : PerMatchAcc) :
    proj (perMatchRallyFold pid tmap r acc) = proj acc + (r.events.filter pred).length := by
  unfold perMatchRallyFold
  rw [foldl_proj_add proj _ (fun i =>
      match r.events.get? i with
      | some e => if pred e then 1 else 0
      | none => 0) ?_ _ acc, range_count]
  intro b i
  rcases hg : r.events.get? i with _ | e <;> rw [List.get?_eq_getElem?] at hg
  · simp [hg]
  · simp [hg, hstep]

/-- Over all rallies, such a projection counts all contributing events. -/
theorem perMatchFold_proj_eq (pid : String) (tmap : String → Option TeamSide)
    (proj : PerMatchAcc → Nat) (pred : RallyEvent → Bool)
    (hstep : ∀ events i e acc, proj (perMatchEventStep pid tmap events i e acc) =
      proj acc + (if pred e then 1 else 0))
    (rallies : List Rally) (acc : PerMatchAcc) :
    proj (rallies.foldl (fun a r => perMatchRallyFold pid tmap r a) acc) =
      proj acc + (rallies.map (fun r => (r.events.filter pred).length)).sum :=
  foldl_proj_add proj _ (fun r => (r.events.filter pred).length)
    (fun b r => perMatchRallyFold_proj_eq pid tmap proj pred hstep r b) rallies acc

/-- A projection the per-event step advances by at most an indicator
advances over one rally by at most the count of contributing events. -/
theorem perMatchRallyFold_proj_le (pid : String) (tmap : String → Option TeamSide)
    (proj : PerMatchAcc → Nat) (pred : RallyEvent → Bool)
    (hstep : ∀ events i e acc, proj (perMatchEventStep pid tmap events i e acc) ≤
      proj acc + (if pred e then 1 else 0))
    (r : Rally) (acc : PerMatchAcc) :
    proj (perMatchRallyFold pid tmap r acc) ≤ proj acc + (r.events.filter pred).length := by
  unfold perMatchRallyFold
  rw [← range_count pred r.events]
  refine foldl_proj_le proj _ (fun i =>
      match r.events.get? i with
      | some e => if pred e then 1 else 0
      | none => 0) ?_ _ acc
  intro b i
  rcases hg : r.events.get? i with _ | e <;> rw [List.get?_eq_getElem?] at hg
  · simp [hg]
  · simpa [hg] using hstep r.events i e b

/-- Over all rallies, such a projection is at most the total count of
contributing events. -/
theorem perMatchFold_proj_le (pid : String) (tmap : String → Option TeamSide)
    (proj : PerMatchAcc → Nat) (pred : RallyEvent → Bool)
    (hstep : ∀ events i e acc, proj (perMatchEventStep pid tmap events i e acc) ≤
      proj acc + (if pred e then 1 else 0))
    (rallies : List Rally) (acc : PerMatchAcc) :
    proj (rallies.foldl (fun a r => perMatchRallyFold pid tmap r a) acc) ≤
      proj acc + (rallies.map (fun r => (r.events.filter pred).length)).sum :=
  foldl_proj_le proj _ (fun r => (r.events.filter pred).length)
    (fun b r => perMatchRallyFold_proj_le pid tmap proj pred hstep r b) rallies acc

/-- One entry of the all-time set aggregate's input: the source's
`allEvents` items of kind `set` for the player — the match (for its
roster), the enclosing rally's events, the set event's index in them, and
the set event's result. -/
structure SetEntry where
  m : Match
  events : List RallyEvent
  eventIndex : Nat
  result : OkErr
  deriving DecidableEq, Repr

/-- The result record of the `setStat` memo: attempts, scored tosses and
`effectRate`. -/
structure SetStatAgg where
  att : Nat
  scored : Nat
  effectRate : ℚ
  deriving DecidableEq, Repr

/-- The loop body of the `setStat` memo over one set occurrence, on the
accumulator `(att, scored, scoreSum)`: a non-ok set is skipped; an ok set
counts one attempt, and scores the next same-team attack of its rally when
the setter's team resolves and such an attack exists. -/
def setStatStep (pid : String) (acc : Nat × Nat × ℚ) (s : SetEntry) : Nat × Nat × ℚ :=
  if s.result ≠ OkErr.ok then acc
  else
    let att := acc.1 + 1
    let tmap := teamByRoster s.m
    match getActorTeam pid tmap with
    | none => (att, acc.2.1, acc.2.2)
    | some setterTeam =>
        match nextSameTeamAttack s.events setterTeam tmap (s.eventIndex + 1) with
        | none => (att, acc.2.1, acc.2.2)
        | some ar => (att, acc.2.1 + 1, acc.2.2 + scoreAttack ar)

/-- Source: `setStat` memo of `PlayerDetail` in `App.tsx`: fold the loop
over the player's set events and report `att`, `scored` and
`effectRate = scored ? scoreSum / scored : 0` — the numeric value 0, not a
null, when no toss was scored. -/
def setStat (pid : String) (sets : List SetEntry) : SetStatAgg :=
  let acc := sets.foldl (setStatStep pid) (0, 0, 0)
  { att := acc.1, scored := acc.2.1,
    effectRate := if acc.2.1 = 0 then 0 else acc.2.2 / acc.2.1 }

/-- The reported TypeScript value of the all-time set `effectRate` as the
UI consumes it (`setStat.effectRate.toFixed(3)`): always a number, never a
null. -/
def reportedAllTimeSetRate (pid : String) (sets : List SetEntry) : Option ℚ :=
  some (setStat pid sets).effectRate

/-- The `setStat` loop body keeps the running toss score sum within the
scored-toss counter. -/
theorem setStatStep_bounded (pid : String) (acc : Nat × Nat × ℚ) (s : SetEntry)
    (h : 0 ≤ acc.2.2 ∧ acc.2.2 ≤ (acc.2.1 : ℚ)) :
    0 ≤ (setStatStep pid acc s).2.2 ∧
      (setStatStep pid acc s).2.2 ≤ ((setStatStep pid acc s).2.1 : ℚ) := by
  unfold setStatStep
  by_cases hok : s.result ≠ OkErr.ok
  · simpa [hok] using h
  · rcases ht : getActorTeam pid (teamByRoster s.m) with _ | st
    · simpa [hok, ht] using h
    · rcases hn : nextSameTeamAttack s.events st (teamByRoster s.m) (s.eventIndex + 1) with _ | ar
      · simpa [hok, ht, hn] using h
      · have hp := pair_step acc.2.2 acc.2.1 (scoreAttack ar) h.1 h.2
          (scoreAttack_bounds ar).1 (scoreAttack_bounds ar).2
        simpa [hok, ht, hn] using hp

/-- Counterexample for C7 as stated: with an empty contributing set the
all-time aggregates report the numeric value 0 — not a null "no data" — for
`effectRate` (`att ? scoreSum / att : 0`, `scored ? scoreSum / scored : 0`,
and the unconditional `effectRate.toFixed(3)` rendering), while the
per-match series does report null for an empty metric. -/
theorem empty_alltime_rate_is_zero_not_null :
    reportedAllTimeSpikeRate [] = some 0 ∧
    reportedAllTimeSpikeRate [] ≠ none ∧
    (spikeAgg []).att = 0 ∧
    reportedAllTimeSetRate "p1" [] = some 0 ∧
    reportedAllTimeSetRate "p1" [] ≠ none ∧
    (setStat "p1" []).att = 0 ∧
    (setStat "p1" []).effectRate = 0 ∧
    (perMatchRow "p1" exMatch1 []).spike = none := by
  refine ⟨by decide, by decide, rfl, by decide, by decide, rfl, rfl, rfl⟩

/-- The mean of a list of scores in `[0, 1]`, guarded by `att ? sum/att : 0`,
lies in `[0, 1]`. -/
theorem mean_rate_bounds (scores : List ℚ) (h0 : ∀ x ∈ scores, 0 ≤ x)
    (h1 : ∀ x ∈ scores, x ≤ 1) :
    0 ≤ (if scores.length = 0 then (0 : ℚ) else scores.sum / scores.length) ∧
    (if scores.length = 0 then (0 : ℚ) else scores.sum / scores.length) ≤ 1 := by
  by_cases hl : scores.length = 0
  · simp [hl]
  · have hb := ratio_unit_interval scores.sum scores.length hl
      (qlist_sum_nonneg _ h0) (qlist_sum_le_length _ h1)
    simpa [hl] using hb

/-- A total contributing-event count of zero is exactly the absence of any
contributing event. -/
theorem count_zero_iff_any_false (pred : RallyEvent → Bool) (rallies : List Rally) :
    (rallies.map (fun r => (r.events.filter pred).length)).sum = 0 ↔
      rallies.any (fun r => r.events.any pred) = false := by
  induction rallies with
  | nil => simp
  | cons r rest ih =>
      simp only [List.map_cons, List.sum_cons, List.any_cons, Nat.add_eq_zero,
        Bool.or_eq_false_iff, List.length_eq_zero, List.filter_eq_nil, List.any_eq_false, ih]

/-- C7 (amended). Every efficiency is an arithmetic mean of per-event
scores and lies in `[0, 1]`; an empty event set makes the all-time
`effectRate` the numeric value 0 (never NaN, never out of range — but not a
null), while in the per-match series a match contributing zero events for a
metric yields a null gap, not a zero. -/
theorem efficiency_bounds_amended :
    (∀ l : List AttackResult,
      0 ≤ (spikeAgg l).effectRate ∧ (spikeAgg l).effectRate ≤ 1 ∧
      (l = [] → (spikeAgg l).effectRate = 0) ∧
      (l ≠ [] → (spikeAgg l).effectRate = (l.map scoreAttack).sum / l.length)) ∧
    (∀ l : List ServeResult, 0 ≤ serveEffectRate l ∧ serveEffectRate l ≤ 1) ∧
    (∀ l : List BlockResult, 0 ≤ blockEffectRate l ∧ blockEffectRate l ≤ 1) ∧
    (∀ l : List (OkErr × Option ReceiveQuality),
      0 ≤ receiveEffectRate l ∧ receiveEffectRate l ≤ 1) ∧
    (∀ (pid : String) (m : Match) (rallies : List Rally),
      ((perMatchRow pid m rallies).spike = none ↔
        rallies.any (fun r => r.events.any (isSpikeAttackOf pid)) = false) ∧
      ((perMatchRow pid m rallies).serve = none ↔
        rallies.any (fun r => r.events.any (isServeOf pid)) = false) ∧
      ((perMatchRow pid m rallies).block = none ↔
        rallies.any (fun r => r.events.any (isBlockOf pid)) = false) ∧
      ((perMatchRow pid m rallies).receive = none ↔
        rallies.any (fun r => r.events.any (isRDOf pid)) = false) ∧
      (rallies.any (fun r => r.events.any (isOkSetOf pid)) = false →
        (perMatchRow pid m rallies).setR = none) ∧
      (∀ q, (perMatchRow pid m rallies).spike = some q → 0 ≤ q ∧ q ≤ 1) ∧
      (∀ q, (perMatchRow pid m rallies).serve = some q → 0 ≤ q ∧ q ≤ 1) ∧
      (∀ q, (perMatchRow pid m rallies).block = some q → 0 ≤ q ∧ q ≤ 1) ∧
      (∀ q, (perMatchRow pid m rallies).receive = some q → 0 ≤ q ∧ q ≤ 1) ∧
      (∀ q, (perMatchRow pid m rallies).setR = some q → 0 ≤ q ∧ q ≤ 1)) ∧
    (∀ (pid : String) (sets : List SetEntry),
      0 ≤ (setStat pid sets).effectRate ∧ (setStat pid sets).effectRate ≤ 1 ∧
      ((setStat pid sets).scored = 0 → (setStat pid sets).effectRate = 0) ∧
      (sets = [] → (setStat pid sets).effectRate = 0 ∧ (setStat pid sets).att = 0)) := by
  refine ⟨?_, ?_, ?_, ?_, ?_, ?_⟩
  · intro l
    have hb := mean_rate_bounds (l.map scoreAttack)
      (fun x hx => by
        obtain ⟨r, _, rfl⟩ := List.mem_map.mp hx
        exact (scoreAttack_bounds r).1)
      (fun x hx => by
        obtain ⟨r, _, rfl⟩ := List.mem_map.mp hx
        exact (scoreAttack_bounds r).2)
    rw [List.length_map] at hb
    refine ⟨hb.1, hb.2, ?_, ?_⟩
    · intro hl
      subst hl
      rfl
    · intro hl
      have hlen : l.length ≠ 0 := fun hz => hl (List.length_eq_zero.mp hz)
      simp [spikeAgg, hlen]
  · intro l
    have hb := mean_rate_bounds (l.map scoreServe)
      (fun x hx => by
        obtain ⟨r, _, rfl⟩ := List.mem_map.mp hx
        exact (scoreServe_bounds r).1)
      (fun x hx => by
        obtain ⟨r, _, rfl⟩ := List.mem_map.mp hx
        exact (scoreServe_bounds r).2)
    rw [List.length_map] at hb
    exact hb
  · intro l
    have hb := mean_rate_bounds (l.map scoreBlock)
      (fun x hx => by
        obtain ⟨r, _, rfl⟩ := List.mem_map.mp hx
        exact (scoreBlock_bounds r).1)
      (fun x hx => by
        obtain ⟨r, _, rfl⟩ := List.mem_map.mp hx
        exact (scoreBlock_bounds r).2)
    rw [List.length_map] at hb
    exact hb
  · intro l
    have hb := mean_rate_bounds (l.map (fun p => scoreReceive p.1 p.2))
      (fun x hx => by
        obtain ⟨p, _, rfl⟩ := List.mem_map.mp hx
        exact (scoreReceive_bounds p.1 p.2).1)
      (fun x hx => by
        obtain ⟨p, _, rfl⟩ := List.mem_map.mp hx
        exact (scoreReceive_bounds p.1 p.2).2)
    rw [List.length_map] at hb
    exact hb
  · intro pid m rallies
    have haAtt := perMatchFold_proj_eq pid (teamByRoster m) (fun a => a.aAtt)
      (isSpikeAttackOf pid)
      (fun ev i e acc => (perMatchEventStep_counts pid (teamByRoster m) ev i e acc).1)
      rallies PerMatchAcc.zero
    have hsAtt := perMatchFold_proj_eq pid (teamByRoster m) (fun a => a.sAtt)
      (isServeOf pid)
      (fun ev i e acc => (perMatchEventStep_counts pid (teamByRoster m) ev i e acc).2.1)
      rallies PerMatchAcc.zero
    have hbAtt := perMatchFold_proj_eq pid (teamByRoster m) (fun a => a.bAtt)
      (isBlockOf pid)
      (fun ev i e acc => (perMatchEventStep_counts pid (teamByRoster m) ev i e acc).2.2.1)
      rallies PerMatchAcc.zero
    have hrAtt := perMatchFold_proj_eq pid (teamByRoster m) (fun a => a.rAtt)
      (isRDOf pid)
      (fun ev i e acc => (perMatchEventStep_counts pid (teamByRoster m) ev i e acc).2.2.2.1)
      rallies PerMatchAcc.zero
    have hsetLe := perMatchFold_proj_le pid (teamByRoster m) (fun a => a.setScored)
      (isOkSetOf pid)
      (fun ev i e acc => (perMatchEventStep_counts pid (teamByRoster m) ev i e acc).2.2.2.2)
      rallies PerMatchAcc.zero
    have hbd := perMatchAcc_final_bounded pid (teamByRoster m) rallies
    obtain ⟨hb1, hb2, hb3, hb4, hb5, hb6, hb7, hb8, hb9, hb10⟩ := hbd
    simp only [show PerMatchAcc.zero.aAtt = 0 from rfl, show PerMatchAcc.zero.sAtt = 0 from rfl,
      show PerMatchAcc.zero.bAtt = 0 from rfl, show PerMatchAcc.zero.rAtt = 0 from rfl,
      show PerMatchAcc.zero.setScored = 0 from rfl, Nat.zero_add]
      at haAtt hsAtt hbAtt hrAtt hsetLe
    refine ⟨?_, ?_, ?_, ?_, ?_, ?_, ?_, ?_, ?_, ?_⟩
    · rw [← count_zero_iff_any_false, ← haAtt]
      by_cases hz : (rallies.foldl (fun a r => perMatchRallyFold pid (teamByRoster m) r a)
          PerMatchAcc.zero).aAtt = 0 <;> simp [perMatchRow, hz]
    · rw [← count_zero_iff_any_false, ← hsAtt]
      by_cases hz : (rallies.foldl (fun a r => perMatchRallyFold pid (teamByRoster m) r a)
          PerMatchAcc.zero).sAtt = 0 <;> simp [perMatchRow, hz]
    · rw [← count_zero_iff_any_false, ← hbAtt]
      by_cases hz : (rallies.foldl (fun a r => perMatchRallyFold pid (teamByRoster m) r a)
          PerMatchAcc.zero).bAtt = 0 <;> simp [perMatchRow, hz]
    · rw [← count_zero_iff_any_false, ← hrAtt]
      by_cases hz : (rallies.foldl (fun a r => perMatchRallyFold pid (teamByRoster m) r a)
          PerMatchAcc.zero).rAtt = 0 <;> simp [perMatchRow, hz]
    · intro hany
      have hcount := (count_zero_iff_any_false (isOkSetOf pid) rallies).mpr hany
      have hz : (rallies.foldl (fun a r => perMatchRallyFold pid (teamByRoster m) r a)
          PerMatchAcc.zero).setScored = 0 := by
        have := hsetLe.trans (le_of_eq hcount)
        omega
      simp [perMatchRow, hz]
    · intro q hq
      by_cases hz : (rallies.foldl (fun a r => perMatchRallyFold pid (teamByRoster m) r a)
          PerMatchAcc.zero).aAtt = 0
      · simp [perMatchRow, hz] at hq
      · simp only [perMatchRow, hz, if_false] at hq
        obtain rfl : _ = q := Option.some_injective _ hq
        exact ratio_unit_interval _ _ hz hb1 hb2
    · intro q hq
      by_cases hz : (rallies.foldl (fun a r => perMatchRallyFold pid (teamByRoster m) r a)
          PerMatchAcc.zero).sAtt = 0
      · simp [perMatchRow, hz] at hq
      · simp only [perMatchRow, hz, if_false] at hq
        obtain rfl : _ = q := Option.some_injective _ hq
        exact ratio_unit_interval _ _ hz hb3 hb4
    · intro q hq
      by_cases hz : (rallies.foldl (fun a r => perMatchRallyFold pid (teamByRoster m) r a)
          PerMatchAcc.zero).bAtt = 0
      · simp [perMatchRow, hz] at hq
      · simp only [perMatchRow, hz, if_false] at hq
        obtain rfl : _ = q := Option.some_injective _ hq
        exact ratio_unit_interval _ _ hz hb5 hb6
    · intro q hq
      by_cases hz : (rallies.foldl (fun a r => perMatchRallyFold pid (teamByRoster m) r a)
          PerMatchAcc.zero).rAtt = 0
      · simp [perMatchRow, hz] at hq
      · simp only [perMatchRow, hz, if_false] at hq
        obtain rfl : _ = q := Option.some_injective _ hq
        exact ratio_unit_interval _ _ hz hb7 hb8
    · intro q hq
      by_cases hz : (rallies.foldl (fun a r => perMatchRallyFold pid (teamByRoster m) r a)
          PerMatchAcc.zero).setScored = 0
      · simp [perMatchRow, hz] at hq
      · simp only [perMatchRow, hz, if_false] at hq
        obtain rfl : _ = q := Option.some_injective _ hq
        exact ratio_unit_interval _ _ hz hb9 hb10
  · intro pid sets
    have hinv := foldl_inv (fun acc : Nat × Nat × ℚ => 0 ≤ acc.2.2 ∧ acc.2.2 ≤ (acc.2.1 : ℚ))
      (setStatStep pid) (fun b s hb => setStatStep_bounded pid b s hb) sets (0, 0, 0)
      (by norm_num)
    have hsc : (setStat pid sets).scored = (sets.foldl (setStatStep pid) (0, 0, 0)).2.1 := rfl
    have hrate : (setStat pid sets).effectRate =
        (if (sets.foldl (setStatStep pid) (0, 0, 0)).2.1 = 0 then (0 : ℚ)
         else (sets.foldl (setStatStep pid) (0, 0, 0)).2.2 /
           ((sets.foldl (setStatStep pid) (0, 0, 0)).2.1 : ℚ)) := rfl
    refine ⟨?_, ?_, ?_, ?_⟩
    · rw [hrate]
      by_cases hz : (sets.foldl (setStatStep pid) (0, 0, 0)).2.1 = 0
      · rw [if_pos hz]
      · rw [if_neg hz]
        exact (ratio_unit_interval _ _ hz hinv.1 hinv.2).1
    · rw [hrate]
      by_cases hz : (sets.foldl (setStatStep pid) (0, 0, 0)).2.1 = 0
      · rw [if_pos hz]
        norm_num
      · rw [if_neg hz]
        exact (ratio_unit_interval _ _ hz hinv.1 hinv.2).2
    · intro h0
      rw [hrate, if_pos (hsc.symm.trans h0)]
    · intro hempty
      subst hempty
      exact ⟨rfl, rfl⟩

/-- One rally with a single spike attack (effective) by `p1`. -/
def exRallies7 : List Rally :=
  [⟨"r1", "m1", 1, none, [RallyEvent.attack "e1" "p1" 1 none AttackResult.effective]⟩]

/-- One ok set by `p1` followed by a same-team kill attack in its rally. -/
def exSetEntries : List SetEntry :=
  [⟨exMatch1,
    [RallyEvent.setE "e1" "p1" 1 OkErr.ok (some TossType.left),
     RallyEvent.attack "e2" "p1" 2 none AttackResult.kill],
    0, OkErr.ok⟩]

/-- Witness for C7: the nonempty-mean characterization at `[kill]`, the
per-match bound at a concrete one-attack match (`effectRate` 0.7), the
empty set-aggregate reporting 0, and the set-aggregate bounds at a concrete
scored toss. -/
theorem efficiency_bounds_amended_witness :
    ([AttackResult.kill] ≠ ([] : List AttackResult)) ∧
    (spikeAgg [AttackResult.kill]).effectRate =
      (([AttackResult.kill].map scoreAttack).sum /
        (([AttackResult.kill] : List AttackResult).length : ℚ)) ∧
    (0 ≤ (7/10 : ℚ) ∧ (7/10 : ℚ) ≤ 1) ∧
    ((setStat "p1" []).effectRate = 0 ∧ (setStat "p1" []).att = 0) ∧
    (0 ≤ (setStat "p1" exSetEntries).effectRate ∧
      (setStat "p1" exSetEntries).effectRate ≤ 1) :=
  ⟨by decide,
    (efficiency_bounds_amended.1 [AttackResult.kill]).2.2.2 (by decide),
    (efficiency_bounds_amended.2.2.2.2.1 "p1" exMatch1 exRallies7).2.2.2.2.2.1 (7/10) (by
      norm_num [perMatchRow, exRallies7, perMatchRallyFold, perMatchEventStep,
        PerMatchAcc.zero, RallyEvent.actorId, List.range_succ, scoreAttack,
        show ¬ AttackResult.effective = AttackResult.kill from fun h => AttackResult.noConfusion h]),
    (efficiency_bounds_amended.2.2.2.2.2 "p1" []).2.2.2 rfl,
    ⟨(efficiency_bounds_amended.2.2.2.2.2 "p1" exSetEntries).1,
      (efficiency_bounds_amended.2.2.2.2.2 "p1" exSetEntries).2.1⟩⟩

namespace Storage

/-- The closed result vocabulary of each recognized kind (empty for an
unrecognized kind). -/
def resultVocab : String → List String
  | "serve" => ["in", "effective", "ace", "error"]
  | "receive" => ["ok", "error"]
  | "dig" => ["ok", "error"]
  | "set" => ["ok", "error"]
  | "attack" => ["continue", "effective", "kill", "error"]
  | "block" => ["touch", "effective", "point", "error"]
  | "other" => ["continue", "point", "error"]
  | _ => []

/-- A string-valued property exists only on an object. -/
theorem jStrVal_some_isObj (x : JValue) (k s : String) (h : jStrVal x k = some s) :
    isObj x = true := by
  cases x <;> simp [jStrVal, jGet, isObj] at h ⊢

end Storage

/-- C8. Ingestion policy of `normalizeEvent` / `normalizeRally`: an ok
receive/dig whose `quality` is outside `{A, B, C}` is kept with quality
normalized to `B`; an event whose `id` is missing or non-string, whose
`kind` is unrecognized, or whose `result` is outside its kind's closed
vocabulary is dropped (`null`); and a rally with string `id` and `matchId`
is kept, its events individually normalized with the rejects dropped. -/
theorem normalize_ingestion_policy :
    (∀ (x : Storage.JValue) (i : String),
      Storage.jStrVal x "id" = some i →
      Storage.jStrVal x "kind" = some "receive" →
      Storage.jStrVal x "result" = some "ok" →
      (∀ s, Storage.jStrVal x "quality" = some s → s ≠ "A" ∧ s ≠ "B" ∧ s ≠ "C") →
      Storage.normalizeEvent x =
        some (Storage.SEvent.receive i (Storage.jStrVal x "actorId") (Storage.baseTeam x)
          (Storage.jStrVal x "note") OkErr.ok (some ReceiveQuality.B))) ∧
    (∀ (x : Storage.JValue) (i : String),
      Storage.jStrVal x "id" = some i →
      Storage.jStrVal x "kind" = some "dig" →
      Storage.jStrVal x "result" = some "ok" →
      (∀ s, Storage.jStrVal x "quality" = some s → s ≠ "A" ∧ s ≠ "B" ∧ s ≠ "C") →
      Storage.normalizeEvent x =
        some (Storage.SEvent.dig i (Storage.jStrVal x "actorId") (Storage.baseTeam x)
          (Storage.jStrVal x "note") OkErr.ok (some ReceiveQuality.B))) ∧
    (∀ x : Storage.JValue, Storage.jStrVal x "id" = none → Storage.normalizeEvent x = none) ∧
    (∀ (x : Storage.JValue) (k : String),
      Storage.jStrVal x "kind" = some k →
      k ∉ ["serve", "receive", "dig", "set", "attack", "block", "other"] →
      Storage.normalizeEvent x = none) ∧
    (∀ (x : Storage.JValue) (k : String),
      Storage.jStrVal x "kind" = some k →
      (∀ s, Storage.jStrVal x "result" = some s → s ∉ Storage.resultVocab k) →
      Storage.normalizeEvent x = none) ∧
    (∀ (now : String) (x : Storage.JValue) (i mid : String),
      Storage.jStrVal x "id" = some i →
      Storage.jStrVal x "matchId" = some mid →
      ∃ r, Storage.normalizeRally now x = some r ∧ r.id = i ∧ r.matchId = mid ∧
        r.events = (Storage.rawEvents x).filterMap Storage.normalizeEvent) := by
  refine ⟨?_, ?_, ?_, ?_, ?_, ?_⟩
  · intro x i hid hkind hres hq
    have hobj := Storage.jStrVal_some_isObj x "id" i hid
    rcases hqv : Storage.jStrVal x "quality" with _ | s
    · simp [Storage.normalizeEvent, hobj, hid, hkind, hres, hqv]
    · obtain ⟨hA, hB, hC⟩ := hq s hqv
      simp [Storage.normalizeEvent, hobj, hid, hkind, hres, hqv, hA, hB, hC]
  · intro x i hid hkind hres hq
    have hobj := Storage.jStrVal_some_isObj x "id" i hid
    rcases hqv : Storage.jStrVal x "quality" with _ | s
    · simp [Storage.normalizeEvent, hobj, hid, hkind, hres, hqv]
    · obtain ⟨hA, hB, hC⟩ := hq s hqv
      simp [Storage.normalizeEvent, hobj, hid, hkind, hres, hqv, hA, hB, hC]
  · intro x hid
    by_cases hobj : Storage.isObj x = true
    · simp [Storage.normalizeEvent, hobj, hid]
    · simp [Storage.normalizeEvent, hobj]
  · intro x k hkind hk
    by_cases hobj : Storage.isObj x = true
    · rcases hid : Storage.jStrVal x "id" with _ | i
      · simp [Storage.normalizeEvent, hobj, hid]
      · simp only [List.mem_cons, List.mem_singleton, not_or] at hk
        obtain ⟨h1, h2, h3, h4, h5, h6, h7, _⟩ := hk
        simp [Storage.normalizeEvent, hobj, hid, hkind, h1, h2, h3, h4, h5, h6, h7]
    · simp [Storage.normalizeEvent, hobj]
  · intro x k hkind hres
    by_cases hobj : Storage.isObj x = true
    · rcases hid : Storage.jStrVal x "id" with _ | i
      · simp [Storage.normalizeEvent, hobj, hid]
      · rcases hrv : Storage.jStrVal x "result" with _ | s
        · by_cases hk : k = "serve"
          · subst hk; simp [Storage.normalizeEvent, hobj, hid, hkind, hrv]
          · by_cases hk2 : k = "receive"
            · subst hk2; simp [Storage.normalizeEvent, hobj, hid, hkind, hrv]
            · by_cases hk3 : k = "dig"
              · subst hk3; simp [Storage.normalizeEvent, hobj, hid, hkind, hrv]
              · by_cases hk4 : k = "set"
                · subst hk4; simp [Storage.normalizeEvent, hobj, hid, hkind, hrv]
                · by_cases hk5 : k = "attack"
                  · subst hk5
                    rcases hat : Storage.jStrVal x "attackType" with _ | a
                    · simp [Storage.normalizeEvent, hobj, hid, hkind, hat]
                    · by_cases ha1 : a = "spike"
                      · subst ha1
                        simp [Storage.normalizeEvent, hobj, hid, hkind, hat, hrv]
                      · by_cases ha2 : a = "tip"
                        · subst ha2
                          simp [Storage.normalizeEvent, hobj, hid, hkind, hat, hrv]
                        · simp [Storage.normalizeEvent, hobj, hid, hkind, hat, ha1, ha2]
                  · by_cases hk6 : k = "block"
                    · subst hk6; simp [Storage.normalizeEvent, hobj, hid, hkind, hrv]
                    · by_cases hk7 : k = "other"
                      · subst hk7
                        rcases hlb : Storage.jStrVal x "label" with _ | lbl
                        · simp [Storage.normalizeEvent, hobj, hid, hkind, hlb]
                        · simp [Storage.normalizeEvent, hobj, hid, hkind, hlb, hrv]
                      · simp [Storage.normalizeEvent, hobj, hid, hkind,
                          hk, hk2, hk3, hk4, hk5, hk6, hk7]
        · have hs := hres s hrv
          by_cases hk : k = "serve"
          · subst hk
            simp only [Storage.resultVocab, List.mem_cons, List.mem_singleton, not_or] at hs
            obtain ⟨hs1, hs2, hs3, hs4⟩ := hs
            simp [Storage.normalizeEvent, hobj, hid, hkind, hrv, hs1, hs2, hs3, hs4]
          · by_cases hk2 : k = "receive"
            · subst hk2
              simp only [Storage.resultVocab, List.mem_cons, List.mem_singleton, not_or] at hs
              obtain ⟨hs1, hs2⟩ := hs
              simp [Storage.normalizeEvent, hobj, hid, hkind, hrv, hs1, hs2]
            · by_cases hk3 : k = "dig"
              · subst hk3
                simp only [Storage.resultVocab, List.mem_cons, List.mem_singleton, not_or] at hs
                obtain ⟨hs1, hs2⟩ := hs
                simp [Storage.normalizeEvent, hobj, hid, hkind, hrv, hs1, hs2]
              · by_cases hk4 : k = "set"
                · subst hk4
                  simp only [Storage.resultVocab, List.mem_cons, List.mem_singleton, not_or] at hs
                  obtain ⟨hs1, hs2⟩ := hs
                  simp [Storage.normalizeEvent, hobj, hid, hkind, hrv, hs1, hs2]
                · by_cases hk5 : k = "attack"
                  · subst hk5
                    simp only [Storage.resultVocab, List.mem_cons, List.mem_singleton,
                      not_or] at hs
                    obtain ⟨hs1, hs2, hs3, hs4⟩ := hs
                    rcases hat : Storage.jStrVal x "attackType" with _ | a
                    · simp [Storage.normalizeEvent, hobj, hid, hkind, hat]
                    · by_cases ha1 : a = "spike"
                      · subst ha1
                        simp [Storage.normalizeEvent, hobj, hid, hkind, hat, hrv,
                          hs1, hs2, hs3, hs4]
                      · by_cases ha2 : a = "tip"
                        · subst ha2
                          simp [Storage.normalizeEvent, hobj, hid, hkind, hat, hrv,
                            hs1, hs2, hs3, hs4]
                        · simp [Storage.normalizeEvent, hobj, hid, hkind, hat, ha1, ha2]
                  · by_cases hk6 : k = "block"
                    · subst hk6
                      simp only [Storage.resultVocab, List.mem_cons, List.mem_singleton,
                        not_or] at hs
                      obtain ⟨hs1, hs2, hs3, hs4⟩ := hs
                      simp [Storage.normalizeEvent, hobj, hid, hkind, hrv, hs1, hs2, hs3, hs4]
                    · by_cases hk7 : k = "other"
                      · subst hk7
                        simp only [Storage.resultVocab, List.mem_cons, List.mem_singleton,
                          not_or] at hs
                        obtain ⟨hs1, hs2, hs3⟩ := hs
                        rcases hlb : Storage.jStrVal x "label" with _ | lbl
                        · simp [Storage.normalizeEvent, hobj, hid, hkind, hlb]
                        · simp [Storage.normalizeEvent, hobj, hid, hkind, hlb, hrv,
                            hs1, hs2, hs3]
                      · simp [Storage.normalizeEvent, hobj, hid, hkind,
                          hk, hk2, hk3, hk4, hk5, hk6, hk7]
    · simp [Storage.normalizeEvent, hobj]
  · intro now x i mid hid hmid
    have hobj := Storage.jStrVal_some_isObj x "id" i hid
    refine ⟨⟨i, mid, (Storage.jStrVal x "createdAt").getD now,
        (Storage.rawEvents x).filterMap Storage.normalizeEvent⟩, ?_, rfl, rfl, rfl⟩
    simp [Storage.normalizeRally, hobj, hid, hmid]

/-- A concrete persisted event object: a receive with result ok and a
numeric (invalid) quality. -/
def exRawEvent : Storage.JValue :=
  Storage.JValue.jobj [("id", Storage.JValue.jstr "e1"), ("kind", Storage.JValue.jstr "receive"),
    ("result", Storage.JValue.jstr "ok"), ("quality", Storage.JValue.jnum 5)]

/-- Witness for C8: the concrete malformed-quality receive is kept with
quality defaulted to `B`. -/
theorem normalize_ingestion_policy_witness :
    Storage.jStrVal exRawEvent "quality" = none ∧
    Storage.normalizeEvent exRawEvent =
      some (Storage.SEvent.receive "e1" none none none OkErr.ok (some ReceiveQuality.B)) :=
  ⟨rfl,
    normalize_ingestion_policy.1 exRawEvent "e1" rfl rfl rfl
      (fun s h => by
        rw [show Storage.jStrVal exRawEvent "quality" = none from rfl] at h
        exact Option.noConfusion h)⟩

/-- The loop of `addEventInlineAndAutoAdvance` is the pointwise per-rally
step, with the advance flag the disjunction of the per-rally flags. -/
theorem addEventLoop_eq (rid : String) (e : RallyEvent) (inf : Option TeamSide)
    (rs : List Rally) :
    (addEventLoop rid e inf rs).1 = rs.map (fun r => (addEventRallyStep rid e inf r).1) ∧
    (addEventLoop rid e inf rs).2 = rs.any (fun r => (addEventRallyStep rid e inf r).2) := by
  induction rs with
  | nil => exact ⟨rfl, rfl⟩
  | cons r rest ih =>
      simp only [addEventLoop, List.map_cons, List.any_cons]
      exact ⟨by rw [ih.1], by rw [ih.2]⟩

/-- An already-scored rally passes through the per-rally step unchanged and
raises no advance flag. -/
theorem addEventRallyStep_scored (rid : String) (e : RallyEvent) (inf : Option TeamSide)
    (r : Rally) (h : r.point ≠ none) : addEventRallyStep rid e inf r = (r, false) := by
  unfold addEventRallyStep
  by_cases h1 : r.id ≠ rid
  · simp [h1]
  · simp [h1, h]

/-- The per-rally step advances exactly on the unscored target rally with a
terminal inference. -/
theorem addEventRallyStep_adv_iff (rid : String) (e : RallyEvent) (inf : Option TeamSide)
    (r : Rally) :
    (addEventRallyStep rid e inf r).2 = true ↔ (r.id = rid ∧ r.point = none ∧ inf ≠ none) := by
  unfold addEventRallyStep
  by_cases h1 : r.id ≠ rid
  · simp [h1]
  · by_cases h2 : r.point ≠ none
    · simp [h1, h2]
    · rcases inf with _ | w
      · simp [h1, h2]
      · simp only [ne_eq, h1, not_false_eq_true, not_true_eq_false, if_false, h2]
        simp only [not_not] at h1 h2
        simp [h1, h2]

/-- C10. Adding an event through `addEventInlineAndAutoAdvance` leaves every
already-scored rally unchanged in the store (no event is ever appended to a
scored rally); the store grows by exactly one rally when the append
finishes the rally and by none otherwise; a terminal inference on an
existing unscored target rally always advances; and on advance a fresh
empty unscored rally for the same match is added whose `createdAt` is
strictly later than the finished rally's. -/
theorem addEvent_scored_frame_and_advance (db : DB) (m : Match) (rallyId : String)
    (event : RallyEvent) (now : Nat) (nextId : String)
    (hclock : ∀ r ∈ db.rallies, r.createdAt ≤ now) :
    (∀ r ∈ db.rallies, r.point ≠ none →
      r ∈ (addEventInlineAndAutoAdvance db m rallyId event now nextId).1.rallies) ∧
    ((addEventInlineAndAutoAdvance db m rallyId event now nextId).2 = none →
      (addEventInlineAndAutoAdvance db m rallyId event now nextId).1.rallies.length =
        db.rallies.length) ∧
    ((addEventInlineAndAutoAdvance db m rallyId event now nextId).2 = some nextId →
      (addEventInlineAndAutoAdvance db m rallyId event now nextId).1.rallies.length =
        db.rallies.length + 1) ∧
    ((classifyEvent (teamByRoster m) event ≠ none ∧
        (∃ r ∈ db.rallies, r.id = rallyId ∧ r.point = none)) →
      (addEventInlineAndAutoAdvance db m rallyId event now nextId).2 = some nextId) ∧
    ((addEventInlineAndAutoAdvance db m rallyId event now nextId).2 = some nextId →
      ({ id := nextId, matchId := m.id, createdAt := now + 1, point := none,
          events := [] } : Rally)
        ∈ (addEventInlineAndAutoAdvance db m rallyId event now nextId).1.rallies ∧
      ∃ r ∈ db.rallies, r.id = rallyId ∧ r.point = none ∧ r.createdAt < now + 1) := by
  have hloop := addEventLoop_eq rallyId event
    ((getActorTeam event.actorId (teamByRoster m)).bind
      (fun t => inferPointFromEvent event t)) db.rallies
  rcases hp : addEventLoop rallyId event
      ((getActorTeam event.actorId (teamByRoster m)).bind
        (fun t => inferPointFromEvent event t)) db.rallies with ⟨nr, adv⟩
  rw [hp] at hloop
  obtain ⟨hnr, hadv⟩ := hloop
  simp only at hnr hadv
  have hout : addEventInlineAndAutoAdvance db m rallyId event now nextId =
      ({ db with rallies :=
          (if adv then nr ++ [{ id := nextId, matchId := m.id, createdAt := now + 1,
                                point := none, events := [] }] else nr) },
        if adv then some nextId else none) := by
    simp only [addEventInlineAndAutoAdvance, hp]
  refine ⟨?_, ?_, ?_, ?_, ?_⟩
  · intro r hr hscored
    rw [hout]
    have hmem : r ∈ nr := by
      rw [hnr]
      refine List.mem_map.mpr ⟨r, hr, ?_⟩
      rw [addEventRallyStep_scored _ _ _ _ hscored]
    cases adv
    · simpa using hmem
    · simp only [if_true]
      exact List.mem_append_left _ hmem
  · rw [hout]
    cases adv
    · intro _
      simp [hnr]
    · intro h
      simp at h
  · rw [hout]
    cases adv
    · intro h
      simp at h
    · intro _
      simp [hnr]
  · rintro ⟨hterm, r0, hr0, hid0, hpt0⟩
    rw [hout]
    have hstep : (addEventRallyStep rallyId event
        ((getActorTeam event.actorId (teamByRoster m)).bind
          (fun t => inferPointFromEvent event t)) r0).2 = true := by
      rw [addEventRallyStep_adv_iff]
      exact ⟨hid0, hpt0, by
        intro h
        exact hterm (by rw [classifyEvent]; exact h)⟩
    have : adv = true := by
      rw [hadv]
      exact List.any_eq_true.mpr ⟨r0, hr0, hstep⟩
    simp [this]
  · intro hsome
    have hadvT : adv = true := by
      rw [hout] at hsome
      cases adv
      · simp at hsome
      · rfl
    subst hadvT
    constructor
    · rw [hout]
      simp
    · obtain ⟨r0, hr0, hstep⟩ := List.any_eq_true.mp hadv.symm
      rw [addEventRallyStep_adv_iff] at hstep
      exact ⟨r0, hr0, hstep.1, hstep.2.1, Nat.lt_succ_of_le (hclock r0 hr0)⟩

/-- A concrete store with one scored rally and one unscored target rally. -/
def exDb10 : DB :=
  ⟨[], [exMatch1],
    [⟨"r0", "m1", 1, some TeamSide.our, []⟩, ⟨"r1", "m1", 2, none, []⟩]⟩

/-- Witness for C10: recording an anonymous our-side kill on the unscored
rally of `exDb10` keeps the scored rally unchanged and auto-advances to a
fresh rally id. -/
theorem addEvent_scored_frame_and_advance_witness :
    (⟨"r0", "m1", 1, some TeamSide.our, []⟩ : Rally) ∈
      (addEventInlineAndAutoAdvance exDb10 exMatch1 "r1" exKillEvent 10 "r2").1.rallies ∧
    (addEventInlineAndAutoAdvance exDb10 exMatch1 "r1" exKillEvent 10 "r2").2 = some "r2" :=
  ⟨(addEvent_scored_frame_and_advance exDb10 exMatch1 "r1" exKillEvent 10 "r2" (by decide)).1
      ⟨"r0", "m1", 1, some TeamSide.our, []⟩ (by decide) (by decide),
    (addEvent_scored_frame_and_advance exDb10 exMatch1 "r1" exKillEvent 10 "r2"
        (by decide)).2.2.2.1
      ⟨by decide, ⟨"r1", "m1", 2, none, []⟩, by decide, rfl, rfl⟩⟩
